import Mathlib

/-!
Verification development for the `few` tool (src/few.py): a project-local
dependency synchronizer with an AI-mediated interpretation step.

Python strings are modelled as `List Char`; the filesystem is modelled as
association lists from paths to contents, and directory trees as a mutual
inductive.  External collaborators (git, the generation service, the yaml
library, interactive CLIs) are modelled as explicit oracle parameters, as the
spec directs (spec section 1: they are specified only via the interfaces the
core needs).  Every definition is a direct transcription of the corresponding
Python function, with the source line numbers given in its doc comment.
-/

/-- Python strings, modelled as lists of characters. -/
abbrev Str := List Char

/-- Shorthand turning a Lean string literal into the `Str` model. -/
def tl (s : String) : Str := s.toList

/-- The characters Python's `str.strip()` removes by default. -/
def isPySpace (c : Char) : Bool :=
  c = ' ' || c = '\t' || c = '\n' || c = '\x0d' || c = '\x0b' || c = '\x0c'

/-- Python `str.lstrip()`. -/
def trimLeftPy (l : Str) : Str := l.dropWhile isPySpace

/-- Python `str.rstrip()`. -/
def trimRightPy (l : Str) : Str := (l.reverse.dropWhile isPySpace).reverse

/-- Python `str.strip()`. -/
def pyStrip (l : Str) : Str := trimRightPy (trimLeftPy l)

/-- Python `str.lower()` (ASCII case folding suffices for the texts involved). -/
def lowerPy (l : Str) : Str := l.map Char.toLower

/-- First index at which `pat` occurs in `hay` (Python `str.find`, `none` for -1). -/
def findFrom (pat : Str) : Str → Option Nat
  | [] => if pat.isPrefixOf ([] : Str) then some 0 else none
  | c :: t =>
    if pat.isPrefixOf (c :: t) then some 0
    else (findFrom pat t).map (· + 1)

/-- Python `hay.find(pat)`. -/
def pyFind (pat hay : Str) : Option Nat := findFrom pat hay

/-- Python `hay.find(pat, start)`. -/
def pyFindFrom (pat hay : Str) (start : Nat) : Option Nat :=
  (findFrom pat (hay.drop start)).map (· + start)

/-- Last index at which `pat` occurs in `hay` (Python `str.rfind`, `none` for -1). -/
def rfindPy (pat : Str) : Str → Option Nat
  | [] => if pat.isPrefixOf ([] : Str) then some 0 else none
  | c :: t =>
    match rfindPy pat t with
    | some i => some (i + 1)
    | none => if pat.isPrefixOf (c :: t) then some 0 else none

/-- Python `pat in hay` for strings. -/
def pyContains (pat hay : Str) : Bool := (findFrom pat hay).isSome

/-- Python slice `l[i:j]` where `j` is the result of a `find`/`rfind`
(`none`, i.e. Python -1, addresses the last position, so `l[i:-1]`). -/
def pySliceOpt (l : Str) (i : Nat) (j : Option Nat) : Str :=
  match j with
  | some jj => (l.take jj).drop i
  | none => (l.take (l.length - 1)).drop i

/-- Split at newline characters (chunks between the separators). -/
def splitNl : Str → List Str
  | [] => [[]]
  | c :: t =>
    let r := splitNl t
    if c = '\n' then [] :: r
    else (c :: r.headD []) :: r.tail

/-- Python file line iteration (without the newline terminators): the chunks of
`splitNl`, minus the final chunk when it is empty (a trailing newline opens no
extra line, and an empty file has no lines). -/
def pyLines (content : Str) : List Str :=
  let r := splitNl content
  if r.getLast? = some [] then r.dropLast else r

/-- Python `s.startswith(pre)`. -/
def pyStartsWith (s pre : Str) : Bool := pre.isPrefixOf s

/-- Drop everything from the first occurrence of `c` on (inclusive of nothing:
keeps the part strictly before `c`). -/
def cutAt (c : Char) (l : Str) : Str := l.takeWhile (· ≠ c)

/-- The scheme separator `://` the source branches on (src/few.py line 85). -/
def schemeSep : Str := tl ("://")

/-- The path component of `urlparse(u)` for a URL containing `://`: the text
from the first `/` after the authority, with any query (`?…`) and fragment
(`#…`) removed.  (URL parameters after `;` are not modelled; no reference in
this development uses them.) -/
def pyUrlPath (u : Str) : Str :=
  match pyFind schemeSep u with
  | none => []
  | some i =>
    let rest := u.drop (i + 3)
    cutAt '?' (cutAt '#' (rest.dropWhile (· ≠ '/')))

/-- `os.path.basename`: the part after the last `/`. -/
def pyBasename (p : Str) : Str := (p.reverse.takeWhile (· ≠ '/')).reverse

/-- The root part of `os.path.splitext`: strip a final `.ext`, unless the
name up to that dot consists only of dots (so `.git` keeps its dot). -/
def splitextRoot (b : Str) : Str :=
  match rfindPy (tl (".")) b with
  | none => b
  | some i => if (b.take i).any (fun c => c ≠ '.') then b.take i else b

/-- Python `name.split(sep)[-1]` for a one-character separator. -/
def lastSegAfter (sep : Char) (s : Str) : Str :=
  (s.reverse.takeWhile (· ≠ sep)).reverse

/-- The fixed default owner (src/few.py line 20). -/
def DEFAULT_USER : Str := tl ("peterbaileyct")

/-- `get_repo_url_and_name` (src/few.py lines 83-98): derives the git URL and
the package name from the argument.  A URL keeps the extension-stripped
basename of its path as name; an `owner/name` pair keeps the final segment;
a bare name is combined with the default owner.  The function is total: no
input is rejected. -/
def get_repo_url_and_name (package_arg : Str) : Str × Str :=
  if pyContains schemeSep package_arg then
    (package_arg, splitextRoot (pyBasename (pyUrlPath package_arg)))
  else if pyContains (tl ("/")) package_arg then
    (tl ("https://github.com/") ++ package_arg ++ tl (".git"),
     lastSegAfter '/' package_arg)
  else
    (tl ("https://github.com/") ++ DEFAULT_USER ++ tl ("/") ++ package_arg ++ tl (".git"),
     package_arg)

/-- The fenced-json marker searched first (src/few.py line 467). -/
def fenceJson : Str := tl ("```json")

/-- The generic fence marker (src/few.py line 471). -/
def fence3 : Str := tl ("```")

/-- The JSON extraction step of the PARSE state (src/few.py lines 466-476):
if the lowercased response contains ```json, slice from just after the first
such marker to the next ``` (Python -1, i.e. end-minus-one, when there is no
closing fence); else if the response contains ```, slice from just after the
first fence to the last fence; else take the response itself.  The slice is
stripped of surrounding whitespace. -/
def extractJson (resp : Str) : Str :=
  if pyContains fenceJson (lowerPy resp) then
    let js := (pyFind fenceJson (lowerPy resp)).getD 0 + 7
    pyStrip (pySliceOpt resp js (pyFindFrom fence3 resp js))
  else if pyContains fence3 resp then
    let js := (pyFind fence3 resp).getD 0 + 3
    pyStrip (pySliceOpt resp js (rfindPy fence3 resp))
  else resp

example : get_repo_url_and_name (tl ("https://github.com/peterbaileyct/few.git")) =
    (tl ("https://github.com/peterbaileyct/few.git"), tl ("few")) := by decide

example : get_repo_url_and_name (tl ("alpha/beta")) =
    (tl ("https://github.com/alpha/beta.git"), tl ("beta")) := by decide

example : get_repo_url_and_name (tl ("gamma")) =
    (tl ("https://github.com/peterbaileyct/gamma.git"), tl ("gamma")) := by decide

example : get_repo_url_and_name (tl ("https://github.com/peterbaileyct/")) =
    (tl ("https://github.com/peterbaileyct/"), []) := by decide

example : extractJson (tl ("```json\n[1, 2]\n```")) = tl ("[1, 2]") := by decide

example : extractJson (tl ("```\n[1, 2]\n```")) = tl ("[1, 2]") := by decide

example : extractJson (tl ("[1, 2]")) = tl ("[1, 2]") := by decide

mutual

/-- Parsed JSON values, as Python's `json.loads` produces them (dicts keep
insertion order; non-integer numerals are kept as their raw lexeme, since no
code path of the program inspects their numeric value). -/
inductive JVal
| jnull
| jbool (b : Bool)
| jnum (n : Int)
| jnumRaw (lexeme : Str)
| jstr (s : Str)
| jarr (a : JArr)
| jobj (o : JObj)

/-- A JSON array's elements. -/
inductive JArr
| anil
| acons (v : JVal) (rest : JArr)

/-- A JSON object's members, in source order. -/
inductive JObj
| onil
| ocons (key : Str) (v : JVal) (rest : JObj)

end

/-- The parse errors `json.loads` raises on the shapes of input this
development evaluates, each with the character offset Python reports. -/
inductive JErr
| expectingValue (pos : Nat)
| extraData (pos : Nat)
| propName (pos : Nat)
| colonDelim (pos : Nat)
| commaDelim (pos : Nat)
| unterminatedStr (pos : Nat)
| invalidControl (pos : Nat)
| invalidEscape (pos : Nat)
deriving DecidableEq

/-- JSON whitespace (space, tab, newline, carriage return). -/
def jWs (c : Char) : Bool := c = ' ' || c = '\t' || c = '\n' || c = '\x0d'

/-- Skip JSON whitespace, tracking the absolute position. -/
def skipWs : Str → Nat → Str × Nat
  | [], p => ([], p)
  | c :: t, p => if jWs c then skipWs t (p + 1) else (c :: t, p)

/-- Hexadecimal digit value. -/
def hexVal (c : Char) : Option Nat :=
  if c.isDigit then some (c.toNat - 48)
  else if 'a' ≤ c && c ≤ 'f' then some (c.toNat - 87)
  else if 'A' ≤ c && c ≤ 'F' then some (c.toNat - 55)
  else none

/-- The single-character string escapes of JSON. -/
def escChar (e : Char) : Option Char :=
  if e = '"' then some '"'
  else if e = '\\' then some '\\'
  else if e = '/' then some '/'
  else if e = 'b' then some '\x08'
  else if e = 'f' then some '\x0c'
  else if e = 'n' then some '\n'
  else if e = 'r' then some '\x0d'
  else if e = 't' then some '\t'
  else none

/-- Parse a JSON string body (after the opening quote at `sp`): returns the
decoded characters, the remaining input and the position after the closing
quote.  Control characters are rejected (strict mode), bad escapes are
rejected, and running out of input is an unterminated string. -/
def parseJStr : Str → Nat → Nat → Except JErr (Str × Str × Nat)
  | [], _, sp => .error (.unterminatedStr sp)
  | '"' :: t, p, _ => .ok ([], t, p + 1)
  | '\\' :: rest, p, sp =>
    match rest with
    | [] => .error (.unterminatedStr sp)
    | e :: t =>
      if e = 'u' then
        match t with
        | h1 :: h2 :: h3 :: h4 :: t4 =>
          match hexVal h1, hexVal h2, hexVal h3, hexVal h4 with
          | some a, some b, some c, some d =>
            (parseJStr t4 (p + 6) sp).map
              (fun x => (Char.ofNat (((a * 16 + b) * 16 + c) * 16 + d) :: x.1, x.2.1, x.2.2))
          | _, _, _, _ => .error (.invalidEscape p)
        | _ => .error (.invalidEscape p)
      else
        match escChar e with
        | some ch => (parseJStr t (p + 2) sp).map (fun x => (ch :: x.1, x.2.1, x.2.2))
        | none => .error (.invalidEscape p)
  | c :: t, p, sp =>
    if c.toNat < 32 then .error (.invalidControl p)
    else (parseJStr t (p + 1) sp).map (fun x => (c :: x.1, x.2.1, x.2.2))

/-- Numeric value of a digit string. -/
def natOfDigits (l : Str) : Nat := l.foldl (fun a c => a * 10 + (c.toNat - 48)) 0

/-- Parse a JSON number at `pos` (the grammar of Python's json module:
`-?(0|[1-9][0-9]*)(\.[0-9]+)?([eE][+-]?[0-9]+)?`).  A pure integer becomes
`jnum`; a number with a fraction or exponent keeps its raw lexeme. -/
def parseNum (s : Str) (pos : Nat) : Except JErr (JVal × Str × Nat) :=
  let negLen : Nat := match s with | '-' :: _ => 1 | _ => 0
  let s1 := s.drop negLen
  match s1 with
  | [] => .error (.expectingValue pos)
  | c :: t =>
    if ¬ c.isDigit then .error (.expectingValue pos)
    else
      let intDigits : Str := if c = '0' then ['0'] else c :: t.takeWhile Char.isDigit
      let afterInt := s1.drop intDigits.length
      let fracDigits : Str :=
        match afterInt with
        | '.' :: u => u.takeWhile Char.isDigit
        | _ => []
      let fracLen : Nat := if fracDigits.isEmpty then 0 else fracDigits.length + 1
      let afterFrac := afterInt.drop fracLen
      let expLen : Nat :=
        match afterFrac with
        | 'e' :: '+' :: u => let d := u.takeWhile Char.isDigit; if d.isEmpty then 0 else d.length + 2
        | 'e' :: '-' :: u => let d := u.takeWhile Char.isDigit; if d.isEmpty then 0 else d.length + 2
        | 'e' :: u => let d := u.takeWhile Char.isDigit; if d.isEmpty then 0 else d.length + 1
        | 'E' :: '+' :: u => let d := u.takeWhile Char.isDigit; if d.isEmpty then 0 else d.length + 2
        | 'E' :: '-' :: u => let d := u.takeWhile Char.isDigit; if d.isEmpty then 0 else d.length + 2
        | 'E' :: u => let d := u.takeWhile Char.isDigit; if d.isEmpty then 0 else d.length + 1
        | _ => 0
      let total := negLen + intDigits.length + fracLen + expLen
      if fracLen = 0 ∧ expLen = 0 then
        let n : Int := (natOfDigits intDigits : Int)
        .ok (.jnum (if negLen = 1 then -n else n), s.drop total, pos + total)
      else
        .ok (.jnumRaw (s.take total), s.drop total, pos + total)

/-- What the recursive JSON parser is positioned at: a value, an object's
members (at a property name), or an array's items (at an element). -/
inductive PMode
| pval
| pmem
| pitm

/-- The three result shapes of the recursive JSON parser. -/
inductive PRes
| rv (v : JVal)
| ro (o : JObj)
| ra (a : JArr)

/-- The recursive descent of Python's json module, written as one function
recursing on `fuel` so that it reduces definitionally (`jparse` supplies more
fuel than any input can consume).  Mode `pval` parses one value; `pmem`
parses an object's members from a property name on; `pitm` parses an array's
items from an element on. -/
def parseAny : Nat → PMode → Str → Nat → Except JErr (PRes × Str × Nat)
  | 0, .pval, _, pos => .error (.expectingValue pos)
  | 0, .pmem, _, pos => .error (.propName pos)
  | 0, .pitm, _, pos => .error (.expectingValue pos)
  | fuel + 1, .pval, s, pos =>
    match s with
    | [] => .error (.expectingValue pos)
    | c :: t =>
      if c = '{' then
        let s1p := skipWs t (pos + 1)
        match s1p.1 with
        | '}' :: r => .ok (.rv (.jobj .onil), r, s1p.2 + 1)
        | _ =>
          match parseAny fuel .pmem s1p.1 s1p.2 with
          | .ok (.ro o, r, p) => .ok (.rv (.jobj o), r, p)
          | .ok (_, _, p) => .error (.propName p)
          | .error e => .error e
      else if c = '[' then
        let s1p := skipWs t (pos + 1)
        match s1p.1 with
        | ']' :: r => .ok (.rv (.jarr .anil), r, s1p.2 + 1)
        | _ =>
          match parseAny fuel .pitm s1p.1 s1p.2 with
          | .ok (.ra a, r, p) => .ok (.rv (.jarr a), r, p)
          | .ok (_, _, p) => .error (.expectingValue p)
          | .error e => .error e
      else if c = '"' then
        (parseJStr t (pos + 1) pos).map (fun x => (PRes.rv (.jstr x.1), x.2.1, x.2.2))
      else if c = 't' then
        match s with
        | 't' :: 'r' :: 'u' :: 'e' :: r => .ok (.rv (.jbool true), r, pos + 4)
        | _ => .error (.expectingValue pos)
      else if c = 'f' then
        match s with
        | 'f' :: 'a' :: 'l' :: 's' :: 'e' :: r => .ok (.rv (.jbool false), r, pos + 5)
        | _ => .error (.expectingValue pos)
      else if c = 'n' then
        match s with
        | 'n' :: 'u' :: 'l' :: 'l' :: r => .ok (.rv .jnull, r, pos + 4)
        | _ => .error (.expectingValue pos)
      else if c = '-' ∨ c.isDigit then
        (parseNum s pos).map (fun x => (PRes.rv x.1, x.2.1, x.2.2))
      else .error (.expectingValue pos)
  | fuel + 1, .pmem, s, pos =>
    match s with
    | '"' :: t =>
      match parseJStr t (pos + 1) pos with
      | .error e => .error e
      | .ok (k, r1, p1) =>
        let r2p := skipWs r1 p1
        match r2p.1 with
        | ':' :: r3 =>
          let r4p := skipWs r3 (r2p.2 + 1)
          match parseAny fuel .pval r4p.1 r4p.2 with
          | .error e => .error e
          | .ok (.rv v, r5, p5) =>
            let r6p := skipWs r5 p5
            match r6p.1 with
            | ',' :: r7 =>
              let r8p := skipWs r7 (r6p.2 + 1)
              match parseAny fuel .pmem r8p.1 r8p.2 with
              | .ok (.ro o, r, p) => .ok (.ro (.ocons k v o), r, p)
              | .ok (_, _, p) => .error (.propName p)
              | .error e => .error e
            | '}' :: r7 => .ok (.ro (.ocons k v .onil), r7, r6p.2 + 1)
            | _ => .error (.commaDelim r6p.2)
          | .ok (_, _, p5) => .error (.expectingValue p5)
        | _ => .error (.colonDelim r2p.2)
    | _ => .error (.propName pos)
  | fuel + 1, .pitm, s, pos =>
    match parseAny fuel .pval s pos with
    | .error e => .error e
    | .ok (.rv v, r1, p1) =>
      let r2p := skipWs r1 p1
      match r2p.1 with
      | ',' :: r3 =>
        let r4p := skipWs r3 (r2p.2 + 1)
        match parseAny fuel .pitm r4p.1 r4p.2 with
        | .ok (.ra a, r, p) => .ok (.ra (.acons v a), r, p)
        | .ok (_, _, p) => .error (.expectingValue p)
        | .error e => .error e
      | ']' :: r3 => .ok (.ra (.acons v .anil), r3, r2p.2 + 1)
      | _ => .error (.commaDelim r2p.2)
    | .ok (_, _, p1) => .error (.expectingValue p1)

/-- `json.loads`: whitespace, one value, whitespace, end of input (anything
after is Extra data, at its position). -/
def jparse (s : Str) : Except JErr JVal :=
  let s1p := skipWs s 0
  match parseAny ((s.length + 1) * 4) .pval s1p.1 s1p.2 with
  | .error e => .error e
  | .ok (.rv v, rest, p2) =>
    let r3p := skipWs rest p2
    match r3p.1 with
    | [] => .ok v
    | _ => .error (.extraData r3p.2)
  | .ok (_, _, p2) => .error (.expectingValue p2)

/-- Last binding for a key in a JSON object: Python builds a dict from the
members in order, so a duplicated key keeps its last value. -/
def olookupLast (k : Str) : JObj → Option JVal
  | .onil => none
  | .ocons k2 v r =>
    match olookupLast k r with
    | some x => some x
    | none => if k2 = k then some v else none

/-- Python truthiness of a parsed JSON value (`None`, `False`, zero, and
empty strings/lists/dicts are falsy; a raw numeric lexeme is falsy exactly
when its mantissa has no nonzero digit). -/
def truthyJ : JVal → Bool
  | .jnull => false
  | .jbool b => b
  | .jnum n => decide (n ≠ 0)
  | .jnumRaw lx =>
    (lx.takeWhile (fun c => c ≠ 'e' ∧ c ≠ 'E')).any (fun c => c.isDigit ∧ c ≠ '0')
  | .jstr s => !s.isEmpty
  | .jarr .anil => false
  | .jarr _ => true
  | .jobj .onil => false
  | .jobj _ => true

example : jparse (tl ("2")) = .ok (.jnum 2) := by rfl

example : jparse (tl (" \x7b\"success\": true, \"files\": []\x7d ")) =
    .ok (.jobj (.ocons (tl ("success")) (.jbool true)
      (.ocons (tl ("files")) (.jarr .anil) .onil))) := by rfl

example : jparse (tl ("[1, \"")) = .error (.unterminatedStr 4) := by rfl

example : jparse (tl ("x")) = .error (.expectingValue 0) := by rfl

example : jparse (tl ("[1,")) = .error (.expectingValue 3) := by rfl

example : jparse (tl ("\x7b")) = .error (.propName 1) := by rfl

example : jparse (tl ("[\"a\", -12, null, \x7b\"k\": 1.5e3\x7d]")) =
    .ok (.jarr (.acons (.jstr (tl ("a"))) (.acons (.jnum (-12)) (.acons .jnull
      (.acons (.jobj (.ocons (tl ("k")) (.jnumRaw (tl ("1.5e3"))) .onil)) .anil))))) := by rfl

example : jparse (tl ("01")) = .error (.extraData 1) := by rfl

/-- First binding for a key in an association list. -/
def lookupA {α β : Type} [DecidableEq α] (k : α) : List (α × β) → Option β
  | [] => none
  | (a, b) :: r => if a = k then some b else lookupA k r

/-- Replace every binding of `k` in place by `v`. -/
def replaceA {α β : Type} [DecidableEq α] (k : α) (v : β) : List (α × β) → List (α × β)
  | [] => []
  | (a, b) :: r => if a = k then (k, v) :: replaceA k v r else (a, b) :: replaceA k v r

/-- Overwrite the binding of `k` in place (append at the end when absent),
as Python file writes leave other files where they are. -/
def setA {α β : Type} [DecidableEq α] (k : α) (v : β) (l : List (α × β)) : List (α × β) :=
  if (lookupA k l).isSome then replaceA k v l
  else l ++ [(k, v)]

/-- Remove every binding of `k`. -/
def eraseA {α β : Type} [DecidableEq α] (k : α) (l : List (α × β)) : List (α × β) :=
  l.filter (fun kv => kv.1 ≠ k)

/-- Two spaces per nesting level, as `json.dumps(…, indent=2)` emits. -/
def indentSp (d : Nat) : Str := List.replicate (2 * d) ' '

/-- Four hex digits (lowercase), for the `\uXXXX` escapes of `ensure_ascii`. -/
def hex4 (n : Nat) : Str :=
  let dig := fun (m : Nat) => if m < 10 then Char.ofNat (48 + m) else Char.ofNat (87 + m)
  [dig (n / 4096 % 16), dig (n / 256 % 16), dig (n / 16 % 16), dig (n % 16)]

/-- JSON string-character escaping as `json.dumps` performs it with the
default `ensure_ascii` (characters beyond the basic plane, which would need a
surrogate pair, do not occur in this development). -/
def escJChars : Str → Str
  | [] => []
  | c :: t =>
    if c = '"' then '\\' :: '"' :: escJChars t
    else if c = '\\' then '\\' :: '\\' :: escJChars t
    else if c = '\n' then '\\' :: 'n' :: escJChars t
    else if c = '\t' then '\\' :: 't' :: escJChars t
    else if c = '\x0d' then '\\' :: 'r' :: escJChars t
    else if c = '\x08' then '\\' :: 'b' :: escJChars t
    else if c = '\x0c' then '\\' :: 'f' :: escJChars t
    else if c.toNat < 32 ∨ c.toNat > 126 then '\\' :: 'u' :: (hex4 c.toNat ++ escJChars t)
    else c :: escJChars t

/-- A JSON string literal as `json.dumps` emits it. -/
def encodeJStr (s : Str) : Str := '"' :: (escJChars s ++ ['"'])

mutual

/-- `json.dumps(v, indent=2)` at nesting depth `d` (the source calls it at
depth 0 on dict-valued file contents, src/few.py line 541). -/
def jdumps2 : JVal → Nat → Str
  | .jnull, _ => tl ("null")
  | .jbool true, _ => tl ("true")
  | .jbool false, _ => tl ("false")
  | .jnum n, _ => tl (toString n)
  | .jnumRaw lx, _ => lx
  | .jstr s, _ => encodeJStr s
  | .jarr .anil, _ => tl ("[]")
  | .jarr a, d => '[' :: '\n' :: (jdumpArr a (d + 1) ++ '\n' :: (indentSp d ++ [']']))
  | .jobj .onil, _ => ['{', '}']
  | .jobj o, d => '{' :: '\n' :: (jdumpObj o (d + 1) ++ '\n' :: (indentSp d ++ ['}']))

/-- The lines of a non-empty array under `indent=2`. -/
def jdumpArr : JArr → Nat → Str
  | .anil, _ => []
  | .acons v .anil, d => indentSp d ++ jdumps2 v d
  | .acons v rest, d => indentSp d ++ jdumps2 v d ++ ',' :: '\n' :: jdumpArr rest d

/-- The lines of a non-empty object under `indent=2`. -/
def jdumpObj : JObj → Nat → Str
  | .onil, _ => []
  | .ocons k v .onil, d => indentSp d ++ encodeJStr k ++ ':' :: ' ' :: jdumps2 v d
  | .ocons k v rest, d =>
    indentSp d ++ encodeJStr k ++ ':' :: ' ' :: jdumps2 v d ++ ',' :: '\n' :: jdumpObj rest d

end

/-- Python `repr()` of a string, single-quoted (quote-escaping inside it is
not modelled: no claim evaluates it). -/
def pyReprStr (s : Str) : Str := Char.ofNat 39 :: (s ++ [Char.ofNat 39])

mutual

/-- Python `str()` of a parsed JSON value (`None`/`True`/`False`, decimal
integers, list and dict display via `repr` of the elements). -/
def pyStrJ : JVal → Str
  | .jnull => tl ("None")
  | .jbool true => tl ("True")
  | .jbool false => tl ("False")
  | .jnum n => tl (toString n)
  | .jnumRaw lx => lx
  | .jstr s => s
  | .jarr a => '[' :: (pyReprArr a ++ [']'])
  | .jobj o => '{' :: (pyReprObj o ++ ['}'])

/-- Python `repr()` of a parsed JSON value. -/
def pyReprJ : JVal → Str
  | .jstr s => pyReprStr s
  | v => pyStrJ v

/-- Comma-separated `repr`s of a list's elements. -/
def pyReprArr : JArr → Str
  | .anil => []
  | .acons v .anil => pyReprJ v
  | .acons v rest => pyReprJ v ++ ',' :: ' ' :: pyReprArr rest

/-- Comma-separated `key: value` displays of a dict. -/
def pyReprObj : JObj → Str
  | .onil => []
  | .ocons k v .onil => pyReprStr k ++ ':' :: ' ' :: pyReprJ v
  | .ocons k v rest => pyReprStr k ++ ':' :: ' ' :: pyReprJ v ++ ',' :: ' ' :: pyReprObj rest

end

/-- The content coercion of MATERIALIZE (src/few.py lines 538-543): a dict
becomes `json.dumps(…, indent=2)`, a string stays itself, anything else
becomes `str(…)`. -/
def coerceContent : JVal → Str
  | .jobj o => jdumps2 (.jobj o) 0
  | .jstr s => s
  | v => pyStrJ v

/-- A raised Python exception as the pipeline's handler sees it: its message
(`str(e)`) and whether it carries an HTTP 429 response (src/few.py line 560). -/
structure PyExn where
  msg : Str
  http429 : Bool
deriving DecidableEq

/-- How often each oracle has been consulted: `input()` prompts, generation
calls, log writes.  Indexing external calls by their sequence number keeps
the oracles deterministic. -/
structure Counters where
  prompts : Nat
  gens : Nat
  logs : Nat
deriving DecidableEq

/-- The pipeline's external world: what `input()` returns for the n-th
prompt, what the n-th `model.generate_content` call yields (a response text
or a raised exception), and whether the n-th `append_to_log` write raises. -/
structure GenEnv where
  keyInput : Nat → Str
  gen : Nat → Except PyExn Str
  logRes : Nat → Option PyExn

/-- The filesystem the pipeline touches: paths to contents. -/
abbrev FS := List (Str × Str)

/-- The credential file `get_api_key` reads and writes:
`Path.home() / "few" / ".gemini.key"` (src/few.py line 318; the home
directory is written `~`). -/
def fewKeyPath : Str := tl ("~/few/.gemini.key")

/-- The path the authentication handler deletes:
`Path.home() / ".few" / ".gemini.key"` (src/few.py line 568). -/
def dotFewKeyPath : Str := tl ("~/.few/.gemini.key")

/-- `get_api_key` (src/few.py lines 316-334): return the stripped content of
the cached credential file if it exists; otherwise prompt, save the stripped
input there, and return it. -/
def get_api_key (env : GenEnv) (fs : FS) (c : Counters) : Str × FS × Counters :=
  match lookupA fewKeyPath fs with
  | some content => (pyStrip content, fs, c)
  | none =>
    let k := pyStrip (env.keyInput c.prompts)
    (k, setA fewKeyPath k fs, { c with prompts := c.prompts + 1 })

/-- `append_to_log` (src/few.py lines 398-413) as the pipeline sees it: the
write either succeeds or raises; either way the call is consumed.  The
function body has no exception handling of its own. -/
def appendLog (env : GenEnv) (c : Counters) : Option PyExn × Counters :=
  (env.logRes c.logs, { c with logs := c.logs + 1 })

/-- The authentication-signal test of the exception handler (src/few.py
line 564): the lowercased message contains `api` and one of `key`, `auth`,
`invalid`. -/
def authSignal (m : Str) : Bool :=
  pyContains (tl ("api")) (lowerPy m) &&
    (pyContains (tl ("key")) (lowerPy m) ||
     pyContains (tl ("auth")) (lowerPy m) ||
     pyContains (tl ("invalid")) (lowerPy m))

/-- Outcome of the parse-repair loop (src/few.py lines 460-516). -/
inductive RetryRes
| parsed (v : JVal) (c : Counters)
| exhausted (e : JErr) (c : Counters)
| raised (x : PyExn) (c : Counters)
| noBudget (c : Counters)

/-- The parse-repair loop (src/few.py lines 460-516): parse the current
response; on failure, if the 3-attempt budget is not yet exhausted, log the
fix prompt, generate again, log the fix response and retry; once
`retry_count` reaches `max_retries = 3`, stop with the last parse error.
`budget` is `max_retries - retry_count`; the loop is entered with budget 3. -/
def retryGo (env : GenEnv) : Nat → Counters → Str → RetryRes
  | 0, c, _ => .noBudget c
  | budget + 1, c, resp =>
    match jparse (extractJson resp) with
    | .ok v => .parsed v c
    | .error e =>
      match budget with
      | 0 => .exhausted e c
      | _ + 1 =>
        match appendLog env c with
        | (some x, c2) => .raised x c2
        | (none, c2) =>
          match env.gen c2.gens with
          | .error x => .raised x { c2 with gens := c2.gens + 1 }
          | .ok r =>
            let c3 := { c2 with gens := c2.gens + 1 }
            match appendLog env c3 with
            | (some x, c4) => .raised x c4
            | (none, c4) => retryGo env budget c4 r

/-- How one pipeline pass ends (src/few.py lines 415-574). -/
inductive IOut
| fuelOut (fs : FS) (c : Counters)
| quota (fs : FS) (c : Counters)
| abortedOther (x : PyExn) (fs : FS) (c : Counters)
| parseFailed (e : JErr) (fs : FS) (c : Counters)
| compileFailed (err : Option JVal) (fs : FS) (c : Counters)
| done (written : List Str) (fs : FS) (c : Counters)

/-- A `KeyError` as the materialize loop can raise it (missing `path` or
`content`; message abbreviated, it only reaches the generic handler). -/
def keyErrorExn : PyExn := ⟨tl ("KeyError"), false⟩

/-- A `TypeError` from indexing a non-dict file entry or building a path
from a non-string. -/
def typeErrorExn : PyExn := ⟨tl ("TypeError"), false⟩

/-- An `AttributeError` from calling `.get` on a non-dict parse result. -/
def attrErrorExn : PyExn := ⟨tl ("AttributeError"), false⟩

/-- The file-writing loop of MATERIALIZE (src/few.py lines 529-549): each
entry must be a dict with a string `path` and a `content`; the coerced
content is written (overwriting), parents created as needed.  A raised
exception keeps the files already written (no rollback). -/
def writeFiles (fs : FS) (acc : List Str) : JArr → Sum (PyExn × FS) (FS × List Str)
  | .anil => .inr (fs, acc)
  | .acons fi rest =>
    match fi with
    | .jobj fo =>
      match olookupLast (tl ("path")) fo with
      | none => .inl (keyErrorExn, fs)
      | some pv =>
        match pv with
        | .jstr p =>
          match olookupLast (tl ("content")) fo with
          | none => .inl (keyErrorExn, fs)
          | some cv => writeFiles (setA p (coerceContent cv) fs) (acc ++ [p]) rest
        | _ => .inl (typeErrorExn, fs)
    | _ => .inl (typeErrorExn, fs)

/-- MATERIALIZE (src/few.py lines 522-555): a falsy `success` reports the
embedded error and stops without writing; otherwise the `files` list (default
empty) is written out and the pass is done. -/
def materialize (v : JVal) (fs : FS) (c : Counters) : Sum (PyExn × FS × Counters) IOut :=
  match v with
  | .jobj o =>
    if truthyJ ((olookupLast (tl ("success")) o).getD (.jbool false)) = false then
      .inr (.compileFailed (olookupLast (tl ("error")) o) fs c)
    else
      match (olookupLast (tl ("files")) o).getD (.jarr .anil) with
      | .jarr a =>
        match writeFiles fs [] a with
        | .inl (x, fs2) => .inl (x, fs2, c)
        | .inr (fs2, written) => .inr (.done written fs2 c)
      | _ => .inl (typeErrorExn, fs, c)
  | _ => .inl (attrErrorExn, fs, c)

/-- What one iteration of the outer `while True` body produces before the
`except` clause is consulted: a normal outcome, or a raised exception with
the filesystem and counters at the moment it propagates. -/
inductive IterStep
| out (o : IOut)
| raisedI (x : PyExn) (fs : FS) (c : Counters)

/-- One pass of the `try` body of `interpret_project` (src/few.py lines
418-555): acquire the key, log the prompt, generate, log the response, run
the parse-repair loop, then materialize.  Prompt construction (GATHER and
PROMPT) has no effect on control flow and no oracle consumes its text, so it
is not tracked. -/
def iterBody (env : GenEnv) (fs0 : FS) (c0 : Counters) : IterStep :=
  match get_api_key env fs0 c0 with
  | (_, fs, c1) =>
    match appendLog env c1 with
    | (some x, c2) => .raisedI x fs c2
    | (none, c2) =>
      match env.gen c2.gens with
      | .error x => .raisedI x fs { c2 with gens := c2.gens + 1 }
      | .ok r0 =>
        let c3 := { c2 with gens := c2.gens + 1 }
        match appendLog env c3 with
        | (some x, c4) => .raisedI x fs c4
        | (none, c4) =>
          match retryGo env 3 c4 r0 with
          | .raised x c5 => .raisedI x fs c5
          | .exhausted e c5 => .out (.parseFailed e fs c5)
          | .noBudget c5 => .out (.fuelOut fs c5)
          | .parsed v c5 =>
            match materialize v fs c5 with
            | .inl (x, fs2, c6) => .raisedI x fs2 c6
            | .inr o => .out o

/-- `interpret_project` (src/few.py lines 415-574): the outer `while True`
loop, bounded by explicit fuel (the source loop is unbounded).  A raised
exception is dispatched by the `except` clause: HTTP 429 aborts as a quota
failure; an authentication signal deletes `~/.few/.gemini.key` if present
and re-enters the loop; anything else aborts with the error surfaced. -/
def interpret_project (env : GenEnv) : Nat → FS → Counters → IOut
  | 0, fs, c => .fuelOut fs c
  | f + 1, fs, c =>
    match iterBody env fs c with
    | .out o => o
    | .raisedI x fs2 c2 =>
      if x.http429 then .quota fs2 c2
      else if authSignal x.msg then
        let fs3 := if (lookupA dotFewKeyPath fs2).isSome then eraseA dotFewKeyPath fs2 else fs2
        interpret_project env f fs3 c2
      else .abortedOther x fs2 c2

/-- The counters an outcome carries. -/
def IOut.countersOf : IOut → Counters
  | .fuelOut _ c => c
  | .quota _ c => c
  | .abortedOther _ _ c => c
  | .parseFailed _ _ c => c
  | .compileFailed _ _ c => c
  | .done _ _ c => c

/-- The filesystem an outcome carries. -/
def IOut.fsOf : IOut → FS
  | .fuelOut fs _ => fs
  | .quota fs _ => fs
  | .abortedOther _ fs _ => fs
  | .parseFailed _ fs _ => fs
  | .compileFailed _ fs _ => fs
  | .done _ fs _ => fs

/-- The parse error of a `parseFailed` abort. -/
def IOut.parseErrOf : IOut → Option JErr
  | .parseFailed e _ _ => some e
  | _ => none

/-- The exception of a generic abort. -/
def IOut.otherErrOf : IOut → Option PyExn
  | .abortedOther x _ _ => some x
  | _ => none

/-- Parsed YAML values as `yaml.safe_load` hands them to the program (the
yaml library itself is external; theorems take the loader and dumper as
oracle parameters and state only what the program does with them).  Mappings
keep document order. -/
inductive YVal
| ynull
| ybool (b : Bool)
| ynum (n : Int)
| ystr (s : String)
| ylist (l : List YVal)
| ydict (d : List (String × YVal))

/-- Python truthiness of a loaded YAML value. -/
def truthyY : YVal → Bool
  | .ynull => false
  | .ybool b => b
  | .ynum n => decide (n ≠ 0)
  | .ystr s => !s.isEmpty
  | .ylist [] => false
  | .ylist _ => true
  | .ydict [] => false
  | .ydict _ => true

/-- Python `s in list` where `s` is a string: equality only against string
elements. -/
def ylistHasStr (s : String) : List YVal → Bool
  | [] => false
  | .ystr x :: r => x = s || ylistHasStr s r
  | _ :: r => ylistHasStr s r

/-- Last binding of a key in a loaded mapping (Python dicts keep the last
duplicate; a well-formed load has unique keys anyway). -/
def ydictLookupLast (k : String) : List (String × YVal) → Option YVal
  | [] => none
  | (k2, v) :: r =>
    match ydictLookupLast k r with
    | some x => some x
    | none => if k2 = k then some v else none

/-- Replace every binding of `k` in place. -/
def ydictReplace (k : String) (v : YVal) : List (String × YVal) → List (String × YVal)
  | [] => []
  | (k2, v2) :: r =>
    if k2 = k then (k2, v) :: ydictReplace k v r
    else (k2, v2) :: ydictReplace k v r

/-- Python `d[k] = v`: replace in place when the key exists, else append —
insertion order is preserved either way. -/
def ydictSet (k : String) (v : YVal) (d : List (String × YVal)) : List (String × YVal) :=
  if (ydictLookupLast k d).isSome then ydictReplace k v d else d ++ [(k, v)]

/-- Python `s in v` for a string `s`: key membership in a dict, element
equality in a list, substring test in a string; `none` is the `TypeError`
other types raise. -/
def yIn (s : String) : YVal → Option Bool
  | .ydict d => some (ydictLookupLast s d).isSome
  | .ylist l => some (ylistHasStr s l)
  | .ystr x => some (pyContains (tl (s)) (tl (x)))
  | _ => none

/-- The default manifest value `\x7b"words": []\x7d` (src/few.py line 292). -/
def defaultLitany : YVal := .ydict [("words", .ylist [])]

/-- The ensure step of `add_package_to_litany` (src/few.py lines 301-302):
`if "words" not in data or data["words"] is None: data["words"] = []`.
`Sum.inl` is an uncaught `TypeError` (only `yaml.YAMLError` is caught). -/
def ensureWords (v : YVal) : Sum Unit YVal :=
  match yIn "words" v with
  | none => .inl ()
  | some has =>
    if has then
      match v with
      | .ydict d =>
        match ydictLookupLast "words" d with
        | some .ynull => .inr (.ydict (ydictSet "words" (.ylist []) d))
        | some _ => .inr (.ydict d)
        | none => .inl ()
      | _ => .inl ()
    else
      match v with
      | .ydict d => .inr (.ydict (ydictSet "words" (.ylist []) d))
      | _ => .inl ()

/-- How `add_package_to_litany` ends. -/
inductive AddRes
| wrote (content : Str)
| kept
| crashed
deriving DecidableEq

/-- `add_package_to_litany` (src/few.py lines 290-313): load the manifest if
the file exists (a blank file keeps the default; `yaml.YAMLError` is caught
with a warning and the default is used; a `None` load becomes the default);
ensure a non-null `words` entry; then append the package name and rewrite the
file via `yaml.dump` unless the name is already present, in which case
nothing is written.  `crashed` marks the uncaught `TypeError`/`AttributeError`
paths a non-mapping manifest takes. -/
def add_package_to_litany (package_name : String) (file : Option Str)
    (safeLoad : Str → Except Str YVal) (dump : YVal → Str) : AddRes :=
  let afterLoad : Sum Unit YVal :=
    match file with
    | none => .inr defaultLitany
    | some content =>
      let parsed : Except Unit YVal :=
        if (pyStrip content).isEmpty then .ok defaultLitany
        else
          match safeLoad content with
          | .error _ => .error ()
          | .ok .ynull => .ok defaultLitany
          | .ok v => .ok v
      match parsed with
      | .error _ => .inr defaultLitany
      | .ok v => ensureWords v
  match afterLoad with
  | .inl _ => .crashed
  | .inr data =>
    match data with
    | .ydict d =>
      match ydictLookupLast "words" d with
      | some w =>
        match yIn package_name w with
        | none => .crashed
        | some true => .kept
        | some false =>
          match w with
          | .ylist l =>
            .wrote (dump (.ydict (ydictSet "words" (.ylist (l ++ [.ystr package_name])) d)))
          | _ => .crashed
      | none => .crashed
    | _ => .crashed

/-- How the load phase of `handle_litany` ends. -/
inductive LitanyRes
| exitedErr
| noPackages
| proceed (pkgs : List String)
| crashed
deriving DecidableEq

/-- Whether every element is a string, and the strings themselves
(`", ".join(packages)` raises `TypeError` otherwise). -/
def allStrs : List YVal → Option (List String)
  | [] => some []
  | .ystr s :: r => (allStrs r).map (fun t => s :: t)
  | _ :: _ => none

/-- The manifest-loading part of `handle_litany` (src/few.py lines 611-632):
a missing file prints an error and exits 1; a `yaml.YAMLError` prints the
error and exits 1; a falsy document, a document without `words`, or a falsy
`words` value reports no packages; otherwise the `words` value is iterated
(a string by characters, a dict by keys, as Python iteration does). -/
def handle_litany_load (file : Option Str) (safeLoad : Str → Except Str YVal) : LitanyRes :=
  match file with
  | none => .exitedErr
  | some content =>
    match safeLoad content with
    | .error _ => .exitedErr
    | .ok d =>
      if truthyY d = false then .noPackages
      else
        match yIn "words" d with
        | none => .crashed
        | some false => .noPackages
        | some true =>
          match d with
          | .ydict dd =>
            match ydictLookupLast "words" dd with
            | none => .crashed
            | some w =>
              if truthyY w = false then .noPackages
              else
                match w with
                | .ylist l =>
                  match allStrs l with
                  | some pkgs => .proceed pkgs
                  | none => .crashed
                | .ystr s => .proceed (s.toList.map (fun ch => String.mk [ch]))
                | .ydict w2 => .proceed (w2.map (fun kv => kv.1))
                | _ => .crashed
          | _ => .crashed

/-- The project filesystem the bootstrapper touches: file contents by path,
and the set of directories. -/
structure BootFS where
  files : List (String × Str)
  dirs : List String
deriving DecidableEq

/-- The README marker (src/few.py line 22). -/
def README_COMMENT : Str :=
  tl ("# CARBON-BASED-LIFEFORM-NOTICE: README.md is for humans. LLMs should consult PARSEME.md.\n")

/-- The two ignore entries (src/few.py lines 23-26). -/
def GITIGNORE_ENTRIES : List Str := [tl (".few/"), tl ("few.litany.yaml")]

/-- The manifest filename (src/few.py line 27). -/
def LITANY_FILE : String := "few.litany.yaml"

/-- The built-in default PARSEME.md (src/few.py lines 148-149). -/
def defaultParseme : Str :=
  tl ("# PARSEME.md\n\nThis file is intended for Large Language Models (LLMs).\n")

/-- `yaml.dump(\x7b"words": []\x7d)` (src/few.py line 192). -/
def emptyLitanyYaml : Str := tl ("words: []\n")

/-- `update_gitignore` (src/few.py lines 100-113): read the stripped lines of
`.gitignore` if it exists, then append (in order, each preceded by a newline)
every fixed entry not already present; append mode creates the file when
missing.  Its changes do not feed the bootstrapper's `initialized_now`. -/
def update_gitignore (fs : BootFS) : BootFS :=
  let existing : List Str :=
    match lookupA ".gitignore" fs.files with
    | some content => (pyLines content).map pyStrip
    | none => []
  let base : Str := (lookupA ".gitignore" fs.files).getD []
  let additions : Str :=
    (GITIGNORE_ENTRIES.filter (fun e => ! existing.contains e)).foldl
      (fun acc e => acc ++ '\n' :: e) []
  { fs with files := setA ".gitignore" (base ++ additions) fs.files }

/-- Step 1 of `initialize_few_project` (src/few.py lines 134-157): fetch or
create PARSEME.md when absent.  `cloneOk` is whether the shallow clone of the
tool's own repository succeeds (its failure makes `run_command` exit the
process: `none`); `repoParseme` is the cloned repository's PARSEME.md when it
has one (`none` falls back to the built-in default, line 147). -/
def parsemeStep (fs : BootFS) (cloneOk : Bool) (repoParseme : Option Str) :
    Option (BootFS × Bool) :=
  if (lookupA "PARSEME.md" fs.files).isSome then some (fs, false)
  else if cloneOk then
    some ({ fs with files := setA "PARSEME.md" (repoParseme.getD defaultParseme) fs.files },
          true)
  else none

/-- Step 2 of `initialize_few_project` (src/few.py lines 159-176): prepend
the LLM marker to README.md unless absent or already marked. -/
def readmeStep (fs : BootFS) : BootFS × Bool :=
  match lookupA "README.md" fs.files with
  | none => (fs, false)
  | some content =>
    if pyStartsWith (trimLeftPy content) (pyStrip README_COMMENT) then (fs, false)
    else ({ fs with files := setA "README.md" (README_COMMENT ++ content) fs.files }, true)

/-- Step 3 of `initialize_few_project` (src/few.py lines 178-185): create the
`.few/words` directory when absent. -/
def wordsDirStep (fs : BootFS) : BootFS × Bool :=
  if ".few/words" ∈ fs.dirs then (fs, false)
  else ({ fs with dirs := fs.dirs ++ [".few/words"] }, true)

/-- Step 4 of `initialize_few_project` (src/few.py lines 188-195): create the
manifest file when absent. -/
def litanyFileStep (fs : BootFS) : BootFS × Bool :=
  if (lookupA LITANY_FILE fs.files).isSome then (fs, false)
  else ({ fs with files := setA LITANY_FILE emptyLitanyYaml fs.files }, true)

/-- `initialize_few_project` (src/few.py lines 123-261), the five artifact
steps in source order, then the Firebase block.  `firebase_available` is
`check_firebase_cli`; `fbLoginOk` is whether the interactive `firebase login`
succeeds (failure exits via `run_command`); `fbInitOk` is whether the
hosting-init block runs without exception (line 251 then records a change);
`fbEffect` is the filesystem effect of the interactive hosting CLI and its
follow-up config edits, an excluded external collaborator (spec section 1).
`update_gitignore`'s changes do not feed `initialized_now` (line 198).
Returns whether anything was initialized and the resulting filesystem;
`none` is a process exit. -/
def initialize_few_project (fs : BootFS) (firebase_available : Bool)
    (cloneOk : Bool) (repoParseme : Option Str)
    (fbLoginOk : Bool) (fbInitOk : Bool) (fbEffect : BootFS → BootFS) :
    Option (Bool × BootFS) :=
  match parsemeStep fs cloneOk repoParseme with
  | none => none
  | some (fs1, ch1) =>
    match readmeStep fs1 with
    | (fs2, ch2) =>
      match wordsDirStep fs2 with
      | (fs3, ch3) =>
        match litanyFileStep fs3 with
        | (fs4, ch4) =>
          let fs5 := update_gitignore fs4
          if firebase_available then
            if fbLoginOk then some (ch1 || ch2 || ch3 || ch4 || fbInitOk, fbEffect fs5)
            else none
          else some (ch1 || ch2 || ch3 || ch4, fs5)

/-- An entry of a materialized directory tree: a file with its content, or a
directory, each at a path given as its list of segments. -/
inductive TEnt
| fileE (path : List String) (content : Str)
| dirE (path : List String)
deriving DecidableEq

/-- The path of an entry. -/
def TEnt.pathOf : TEnt → List String
  | .fileE p _ => p
  | .dirE p => p

/-- A directory tree as the set of its entries. -/
abbrev DirTree := List TEnt

/-- Whether an entry lies under a component named `.git` (at any level). -/
def hasGitSeg (e : TEnt) : Bool := e.pathOf.contains ".git"

/-- `shutil.copytree(…, ignore=shutil.ignore_patterns(".git"))` (src/few.py
line 607): every entry whose path meets a component named `.git` is skipped
(the ignore callback runs in every directory and matches the pattern
literally); everything else is copied as is. -/
def pruneGit (t : DirTree) : DirTree := t.filter (fun e => ¬ hasGitSeg e)

/-- No entry of the tree is version-control metadata. -/
def gitFreeT (t : DirTree) : Bool := t.all (fun e => ¬ hasGitSeg e)

/-- The two directory roots the synchronizer touches: the global cache
`~/few/words/<name>` and the project words `.few/words/<name>`, each a map
from canonical name to that package's tree. -/
structure SyncSt where
  cache : List (String × DirTree)
  proj : List (String × DirTree)
deriving DecidableEq

/-- How the synchronization part of `handle_listen` ends: a `run_command`
failure exits the process (the project words are carried as they stood), or
the copy completes with the new state. -/
inductive SyncRes
| exited (proj : List (String × DirTree))
| doneS (st : SyncSt)
deriving DecidableEq

/-- The synchronization part of `handle_listen` (src/few.py lines 592-608):
ensure the cache root; if a cache entry exists, `git pull` it (the oracle
`pullResult` is the refreshed tree, `none` a failure, on which `run_command`
exits); else `git clone` (oracle `cloneResult` likewise); then remove any
existing project word and copy the cache entry over, pruning `.git`. -/
def handle_listen_sync (name : String) (st : SyncSt)
    (pullResult cloneResult : Option DirTree) : SyncRes :=
  match lookupA name st.cache with
  | some _ =>
    match pullResult with
    | none => .exited st.proj
    | some t =>
      let cache2 := setA name t st.cache
      let proj1 :=
        match lookupA name st.proj with
        | some _ => eraseA name st.proj
        | none => st.proj
      .doneS ⟨cache2, proj1 ++ [(name, pruneGit t)]⟩
  | none =>
    match cloneResult with
    | none => .exited st.proj
    | some t =>
      let cache2 := st.cache ++ [(name, t)]
      let proj1 :=
        match lookupA name st.proj with
        | some _ => eraseA name st.proj
        | none => st.proj
      .doneS ⟨cache2, proj1 ++ [(name, pruneGit t)]⟩

/-- The tree the synchronizer copies from, after the git step: the refreshed
cache entry when one existed, else the fresh clone. -/
def syncSource (name : String) (st : SyncSt) (pullResult cloneResult : Option DirTree) :
    Option DirTree :=
  match lookupA name st.cache with
  | some _ => pullResult
  | none => cloneResult

/-- The backtick character (written via its code point). -/
def btk : Char := Char.ofNat 96

/-- Count of occurrences of the string `s` among a sequence's elements. -/
def ylistCountStr (s : String) : List YVal → Nat
  | [] => 0
  | .ystr x :: r => (if x = s then 1 else 0) + ylistCountStr s r
  | _ :: r => ylistCountStr s r

/-- The raw response wrapped in a json-tagged fenced block. -/
def wrapJsonFence (p : Str) : Str := tl ("```json\n") ++ p ++ tl ("\n```")

/-- The raw response wrapped in an untagged fenced block. -/
def wrapFence (p : Str) : Str := tl ("```\n") ++ p ++ tl ("\n```")

/-- The whole PARSE step: extraction, then `json.loads`. -/
def interpretParse (resp : Str) : Except JErr JVal := jparse (extractJson resp)

/-- Concrete cache entry used by the C8 witness: a checkout holding `.git`
metadata and one file. -/
def treeC8 : DirTree := [TEnt.dirE [".git"], TEnt.fileE ["a.txt"] (tl ("new"))]

/-- Concrete synchronizer state used by the C8 and C10 witnesses: package `w`
cached and with a stale ProjectWord. -/
def stC8 : SyncSt :=
  ⟨[("w", [TEnt.dirE [".git"], TEnt.fileE ["a.txt"] (tl ("old"))])],
   [("w", [TEnt.fileE ["stale.txt"] (tl ("s"))])]⟩

/-- The authentication failure the generation service raises in the C1
scenario (its message carries `API key`). -/
def authExnC1 : PyExn := ⟨tl ("400 API key not valid. Please pass a valid API key."), false⟩

/-- C1 scenario environment: every generation call fails with the
authentication signal; log writes succeed. -/
def envC1 : GenEnv := ⟨fun _ => tl ("PROMPTED"), fun _ => .error authExnC1, fun _ => none⟩

/-- C1 scenario filesystem: an (invalid) credential cached at the path
`get_api_key` reads. -/
def fsC1 : FS := [(fewKeyPath, tl ("BADKEY"))]

/-- A log-write failure that is neither a quota nor an authentication
signal. -/
def diskFullExn : PyExn := ⟨tl ("No space left on device"), false⟩

/-- A well-formed generation response with no files. -/
def okJsonResp : Str := tl ("\x7b\"success\": true\x7d")

/-- C4 scenario: the first log write fails, generation would succeed. -/
def envC4fail : GenEnv :=
  ⟨fun _ => tl ("K"), fun _ => .ok okJsonResp,
   fun i => if i = 0 then some diskFullExn else none⟩

/-- C4 control scenario: identical but the log write succeeds. -/
def envC4ok : GenEnv := ⟨fun _ => tl ("K"), fun _ => .ok okJsonResp, fun _ => none⟩

/-- C6 witness responses: three differently malformed response texts. -/
def respC6 : Nat → Str :=
  fun i => if i = 0 then tl ("x") else if i = 1 then tl ("[1,") else tl ("\x7b")

/-- The manifest value after appending `n` to the `words` list of `kvs`
(whose previous value was `ws`): the shape `add_package_to_litany` writes. -/
def addedWords (n : String) (ws : List YVal) (kvs : List (String × YVal)) : YVal :=
  .ydict (ydictSet "words" (.ylist (ws ++ [.ystr n])) kvs)

/-- A concrete always-failing yaml loader (C3 witness). -/
def loadFailC3 : Str → Except Str YVal :=
  fun _ => .error (tl ("could not determine a constructor for the tag"))

/-- Concrete manifest mapping for the C9 witness: `words: [a]`. -/
def kvsC9 : List (String × YVal) := [("words", .ylist [.ystr "a"])]

/-- The C9 witness manifest after adding `b`. -/
def d1C9 : YVal := addedWords "b" [.ystr "a"] kvsC9

/-- A concrete yaml dumper for the C9 witness. -/
def dumpC9 : YVal → Str := fun _ => tl ("words: [a, b]")

/-- A concrete yaml loader for the C9 witness, consistent with `dumpC9` on
the two documents the scenario reads. -/
def loadC9 : Str → Except Str YVal :=
  fun x =>
    if x = tl ("words: [a]") then .ok (.ydict kvsC9)
    else if x = tl ("words: [a, b]") then .ok d1C9
    else .error (tl ("e"))

/-- The filesystem produced by bootstrapping an empty project directory with
the Firebase CLI unavailable (C2 counterexample). -/
def bootB : BootFS :=
  ⟨[("PARSEME.md", tl ("# P\n")),
    ("few.litany.yaml", emptyLitanyYaml),
    (".gitignore", tl ("\n.few/\nfew.litany.yaml"))],
   [".few/words"]⟩

section AssocLemmas

variable {α β : Type} [DecidableEq α]

lemma lookupA_append (k : α) (l m : List (α × β)) :
    lookupA k (l ++ m) = ((lookupA k l).orElse (fun _ => lookupA k m)) := by
  induction l with
  | nil => simp [lookupA]
  | cons a t ih =>
    obtain ⟨a1, a2⟩ := a
    by_cases h : a1 = k <;> simp [lookupA, h, ih]

lemma lookupA_eraseA (k : α) (l : List (α × β)) :
    lookupA k (eraseA k l) = none := by
  induction l with
  | nil => simp [eraseA, lookupA]
  | cons a t ih =>
    obtain ⟨a1, a2⟩ := a
    by_cases h : a1 = k <;> simp [eraseA, lookupA, h] at ih ⊢ <;> simpa [eraseA] using ih

lemma lookupA_replaceA_self (k : α) (v : β) (l : List (α × β)) (h : (lookupA k l).isSome) :
    lookupA k (replaceA k v l) = some v := by
  induction l with
  | nil => simp [lookupA] at h
  | cons a t ih =>
    obtain ⟨a1, a2⟩ := a
    by_cases hk : a1 = k
    · simp [replaceA, hk, lookupA]
    · simp only [replaceA, if_neg hk, lookupA]
      simp only [lookupA, hk, if_false] at h
      simp [hk, ih h]

lemma lookupA_setA_self (k : α) (v : β) (l : List (α × β)) :
    lookupA k (setA k v l) = some v := by
  unfold setA
  by_cases h : (lookupA k l).isSome
  · simp [h, lookupA_replaceA_self k v l h]
  · simp [h, lookupA_append, Option.not_isSome_iff_eq_none.mp h, lookupA]

lemma lookupA_replaceA_other (k k2 : α) (v : β) (l : List (α × β)) (hne : k ≠ k2) :
    lookupA k (replaceA k2 v l) = lookupA k l := by
  induction l with
  | nil => simp [replaceA]
  | cons a t ih =>
    obtain ⟨a1, a2⟩ := a
    by_cases hk : a1 = k2
    · subst hk
      simp [replaceA, lookupA, Ne.symm hne, ih]
    · by_cases hk2 : a1 = k <;> simp [replaceA, lookupA, hk, hk2, hne, ih]

lemma lookupA_setA_other (k k2 : α) (v : β) (l : List (α × β)) (hne : k ≠ k2) :
    lookupA k (setA k2 v l) = lookupA k l := by
  unfold setA
  by_cases h : (lookupA k2 l).isSome
  · simp [h, lookupA_replaceA_other k k2 v l hne]
  · rw [if_neg h, lookupA_append]
    cases hl : lookupA k l <;> simp [lookupA, hne, Ne.symm hne, hl]

lemma lookupA_none_no_key (k : α) (l : List (α × β)) (h : lookupA k l = none) :
    ∀ kv ∈ l, kv.1 ≠ k := by
  induction l with
  | nil => simp
  | cons a t ih =>
    obtain ⟨a1, a2⟩ := a
    by_cases hk : a1 = k
    · simp [lookupA, hk] at h
    · intro kv hkv
      rcases List.mem_cons.mp hkv with h1 | h1
      · subst h1; exact hk
      · exact ih (by simpa [lookupA, hk] using h) kv h1

lemma replaceA_replaceA (k : α) (v : β) (l : List (α × β)) :
    replaceA k v (replaceA k v l) = replaceA k v l := by
  induction l with
  | nil => simp [replaceA]
  | cons a t ih =>
    obtain ⟨a1, a2⟩ := a
    by_cases hk : a1 = k <;> simp [replaceA, hk, ih]

lemma replaceA_append (k : α) (v : β) (l m : List (α × β)) :
    replaceA k v (l ++ m) = replaceA k v l ++ replaceA k v m := by
  induction l with
  | nil => simp [replaceA]
  | cons a t ih =>
    obtain ⟨a1, a2⟩ := a
    by_cases hk : a1 = k <;> simp [replaceA, hk, ih]

lemma replaceA_of_no_key (k : α) (v : β) (l : List (α × β)) (h : lookupA k l = none) :
    replaceA k v l = l := by
  induction l with
  | nil => simp [replaceA]
  | cons a t ih =>
    obtain ⟨a1, a2⟩ := a
    by_cases hk : a1 = k
    · simp [lookupA, hk] at h
    · simp only [replaceA, if_neg hk, List.cons.injEq, true_and]
      exact ih (by simpa [lookupA, hk] using h)

lemma setA_setA_same (k : α) (v : β) (l : List (α × β)) :
    setA k v (setA k v l) = setA k v l := by
  simp only [setA]
  by_cases h : (lookupA k l).isSome
  · simp only [if_pos h]
    have h2 : (lookupA k (replaceA k v l)).isSome := by
      rw [lookupA_replaceA_self k v l h]; rfl
    simp [h2, replaceA_replaceA]
  · simp only [if_neg h]
    have hnone : lookupA k l = none := Option.not_isSome_iff_eq_none.mp h
    have h2 : (lookupA k (l ++ [(k, v)])).isSome := by
      rw [lookupA_append, hnone]
      simp [lookupA]
    rw [if_pos h2, replaceA_append, replaceA_of_no_key k v l hnone]
    simp [replaceA]

end AssocLemmas

section StrLemmas

lemma length_dropWhile_le' (p : Char → Bool) (l : Str) :
    (l.dropWhile p).length ≤ l.length := by
  induction l with
  | nil => simp
  | cons c t ih =>
    by_cases h : p c
    · simp only [List.dropWhile_cons_of_pos h]
      exact Nat.le_trans ih (by simp)
    · simp [List.dropWhile_cons_of_neg h]

lemma dropWhile_length_eq (p : Char → Bool) (l : Str)
    (h : (l.dropWhile p).length = l.length) : l.dropWhile p = l := by
  induction l with
  | nil => simp
  | cons c t ih =>
    by_cases hc : p c
    · exfalso
      rw [List.dropWhile_cons_of_pos hc] at h
      have := length_dropWhile_le' p t
      simp at h
      omega
    · simp [List.dropWhile_cons_of_neg hc]

lemma length_trimRight_le (l : Str) : (trimRightPy l).length ≤ l.length := by
  unfold trimRightPy
  rw [List.length_reverse]
  have := length_dropWhile_le' isPySpace l.reverse
  simpa using this

lemma trimLeft_of_strip (P : Str) (h : pyStrip P = P) : trimLeftPy P = P := by
  have h1 := length_dropWhile_le' isPySpace P
  have h2 := length_trimRight_le (trimLeftPy P)
  unfold pyStrip at h
  have h3 : (trimRightPy (trimLeftPy P)).length = P.length := by rw [h]
  unfold trimLeftPy at h2 h3
  exact dropWhile_length_eq isPySpace P (by omega)

lemma trimRight_of_strip (P : Str) (h : pyStrip P = P) : trimRightPy P = P := by
  have hl := trimLeft_of_strip P h
  unfold pyStrip at h
  rwa [hl] at h

lemma trimRight_append_nl (X : Str) : trimRightPy (X ++ ['\n']) = trimRightPy X := by
  unfold trimRightPy
  rw [List.reverse_append]
  simp [List.dropWhile_cons_of_pos (show isPySpace '\n' = true by decide)]

lemma head_not_space_of_trimLeft (a : Char) (t : Str)
    (h : trimLeftPy (a :: t) = a :: t) : isPySpace a = false := by
  by_contra hc
  have hc2 : isPySpace a = true := by revert hc; cases isPySpace a <;> simp
  unfold trimLeftPy at h
  rw [List.dropWhile_cons_of_pos hc2] at h
  have := length_dropWhile_le' isPySpace t
  have h2 : (t.dropWhile isPySpace).length = (a :: t).length := by rw [h]
  simp at h2
  omega

lemma strip_wrap (P : Str) (h : pyStrip P = P) :
    pyStrip ('\n' :: (P ++ ['\n'])) = P := by
  have hl := trimLeft_of_strip P h
  have hr := trimRight_of_strip P h
  unfold pyStrip
  unfold trimLeftPy
  rw [List.dropWhile_cons_of_pos (show isPySpace '\n' = true by decide)]
  cases P with
  | nil => decide
  | cons a t =>
    have ha := head_not_space_of_trimLeft a t hl
    rw [List.cons_append,
        List.dropWhile_cons_of_neg (by simp [ha]),
        ← List.cons_append, trimRight_append_nl]
    exact hr

lemma findFrom_of_prefix (pat hay : Str) (h : pat.isPrefixOf hay = true) :
    findFrom pat hay = some 0 := by
  cases hay <;> simp [findFrom, h]

lemma findFrom_cons_of_not_pre (pat : Str) (c : Char) (t : Str)
    (h : pat.isPrefixOf (c :: t) = false) :
    findFrom pat (c :: t) = (findFrom pat t).map (· + 1) := by
  simp [findFrom, h]

lemma isPrefixOf_append_self (p r : Str) : p.isPrefixOf (p ++ r) = true := by
  simp [List.isPrefixOf_iff_prefix, List.prefix_append]

lemma findFrom_btk_skip (pr l r : Str) (hl : ∀ c ∈ l, c ≠ btk) :
    findFrom (btk :: pr) (l ++ r) = (findFrom (btk :: pr) r).map (· + l.length) := by
  induction l with
  | nil =>
    simp only [List.nil_append, List.length_nil]
    cases findFrom (btk :: pr) r <;> simp
  | cons c t ih =>
    have hc : c ≠ btk := hl c (by simp)
    have hbeq : (btk == c) = false := beq_eq_false_iff_ne.mpr (Ne.symm hc)
    have hp : (btk :: pr).isPrefixOf (c :: (t ++ r)) = false := by
      simp [List.isPrefixOf, hbeq]
    rw [List.cons_append, findFrom_cons_of_not_pre _ _ _ hp,
        ih (fun x hx => hl x (by simp [hx]))]
    cases findFrom (btk :: pr) r <;> simp <;> omega

lemma findFrom_none_btkfree (pr l : Str) (hl : ∀ c ∈ l, c ≠ btk) :
    findFrom (btk :: pr) l = none := by
  have h0 : findFrom (btk :: pr) ([] : Str) = none := by simp [findFrom, List.isPrefixOf]
  have := findFrom_btk_skip pr l [] hl
  rw [List.append_nil] at this
  rw [this, h0]
  rfl

lemma rfindPy_append_self (l : Str) : rfindPy fence3 (l ++ fence3) = some l.length := by
  induction l with
  | nil =>
    simp only [List.nil_append, List.length_nil]
    decide
  | cons c t ih => simp [rfindPy, ih]

lemma fenceJson_cons : fenceJson = btk :: (btk :: btk :: 'j' :: 's' :: 'o' :: 'n' :: []) := by
  decide

lemma fence3_cons : fence3 = btk :: (btk :: btk :: []) := by decide

lemma toLower_ne_btk (c : Char) (h : c ≠ btk) : Char.toLower c ≠ btk := by
  intro heq
  have heq2 : (if c.toNat ≥ 65 ∧ c.toNat ≤ 90 then Char.ofNat (c.toNat + 32) else c) = btk :=
    heq
  split at heq2
  · next hrange =>
    obtain ⟨h1, h2⟩ := hrange
    set n := c.toNat with hn
    interval_cases n <;> exact absurd heq2 (by decide)
  · exact h heq2

lemma lowerPy_btkfree (P : Str) (hbt : ∀ c ∈ P, c ≠ btk) :
    ∀ c ∈ lowerPy P, c ≠ btk := by
  intro c hc
  unfold lowerPy at hc
  obtain ⟨x, hx, hlx⟩ := List.mem_map.mp hc
  exact hlx ▸ toLower_ne_btk x (hbt x hx)

end StrLemmas

section ExtractLemmas

lemma fenceJson_len : fenceJson.length = 7 := by decide

lemma fence3_len : fence3.length = 3 := by decide

lemma wrapJson_decomp (P : Str) :
    wrapJsonFence P = fenceJson ++ ('\n' :: (P ++ ('\n' :: fence3))) := by
  unfold wrapJsonFence
  rw [show tl ("```json\n") = fenceJson ++ ['\n'] from by decide,
      show tl ("\n```") = '\n' :: fence3 from by decide]
  simp

lemma lower_wrapJson (P : Str) :
    lowerPy (wrapJsonFence P) = fenceJson ++ ('\n' :: (lowerPy P ++ ('\n' :: fence3))) := by
  rw [wrapJson_decomp]
  show (fenceJson ++ ('\n' :: (P ++ ('\n' :: fence3)))).map Char.toLower = _
  rw [List.map_append, List.map_cons, List.map_append, List.map_cons,
      show fenceJson.map Char.toLower = fenceJson from by decide,
      show Char.toLower '\n' = '\n' from by decide,
      show fence3.map Char.toLower = fence3 from by decide]
  rfl

lemma extract_wrapJson (P : Str) (hbt : ∀ c ∈ P, c ≠ btk) (hst : pyStrip P = P) :
    extractJson (wrapJsonFence P) = P := by
  have hc1 : pyContains fenceJson (lowerPy (wrapJsonFence P)) = true := by
    unfold pyContains
    rw [lower_wrapJson, findFrom_of_prefix _ _ (isPrefixOf_append_self _ _)]
    rfl
  have hfind : pyFind fenceJson (lowerPy (wrapJsonFence P)) = some 0 := by
    unfold pyFind
    rw [lower_wrapJson, findFrom_of_prefix _ _ (isPrefixOf_append_self _ _)]
  have hdrop : (wrapJsonFence P).drop 7 = '\n' :: (P ++ ('\n' :: fence3)) := by
    rw [wrapJson_decomp, List.drop_left' fenceJson_len]
  have hregmem : ∀ c ∈ '\n' :: (P ++ ['\n']), c ≠ btk := by
    intro c hc
    rcases List.mem_cons.mp hc with h1 | h1
    · subst h1; decide
    · rcases List.mem_append.mp h1 with h2 | h2
      · exact hbt c h2
      · simp at h2; subst h2; decide
  have hff : findFrom fence3 ((wrapJsonFence P).drop 7) = some (P.length + 2) := by
    rw [hdrop, show '\n' :: (P ++ ('\n' :: fence3)) = ('\n' :: (P ++ ['\n'])) ++ fence3 from
         by simp]
    rw [fence3_cons, findFrom_btk_skip _ _ _ hregmem,
        ← fence3_cons, show findFrom fence3 fence3 = some 0 from by decide]
    simp
  have hfindfrom : pyFindFrom fence3 (wrapJsonFence P) 7 = some (P.length + 9) := by
    unfold pyFindFrom
    rw [hff]
    simp
  have htake : (wrapJsonFence P).take (P.length + 9) = fenceJson ++ ('\n' :: (P ++ ['\n'])) := by
    rw [show wrapJsonFence P = (fenceJson ++ ('\n' :: (P ++ ['\n']))) ++ fence3 from
         by rw [wrapJson_decomp]; simp]
    exact List.take_left' (by simp [fenceJson_len]; omega)
  have hslice : pySliceOpt (wrapJsonFence P) 7 (some (P.length + 9)) = '\n' :: (P ++ ['\n']) := by
    show List.drop 7 (List.take (P.length + 9) (wrapJsonFence P)) = _
    rw [htake, List.drop_left' fenceJson_len]
  unfold extractJson
  rw [if_pos hc1, hfind]
  show pyStrip (pySliceOpt (wrapJsonFence P) 7 (pyFindFrom fence3 (wrapJsonFence P) 7)) = P
  rw [hfindfrom, hslice, strip_wrap P hst]

lemma wrapFence_decomp (P : Str) :
    wrapFence P = fence3 ++ ('\n' :: (P ++ ('\n' :: fence3))) := by
  unfold wrapFence
  rw [show tl ("```\n") = fence3 ++ ['\n'] from by decide,
      show tl ("\n```") = '\n' :: fence3 from by decide]
  simp

lemma lower_wrapFence (P : Str) :
    lowerPy (wrapFence P) = fence3 ++ ('\n' :: (lowerPy P ++ ('\n' :: fence3))) := by
  rw [wrapFence_decomp]
  show (fence3 ++ ('\n' :: (P ++ ('\n' :: fence3)))).map Char.toLower = _
  rw [List.map_append, List.map_cons, List.map_append, List.map_cons,
      show fence3.map Char.toLower = fence3 from by decide,
      show Char.toLower '\n' = '\n' from by decide]
  rfl

lemma np_fj_1 (R : Str) : fenceJson.isPrefixOf (btk :: btk :: btk :: '\n' :: R) = false := by
  rw [fenceJson_cons]
  simp [List.isPrefixOf]

lemma np_fj_2 (R : Str) : fenceJson.isPrefixOf (btk :: btk :: '\n' :: R) = false := by
  rw [fenceJson_cons]
  simp [List.isPrefixOf]
  exact fun h => absurd h (by decide)

lemma np_fj_3 (R : Str) : fenceJson.isPrefixOf (btk :: '\n' :: R) = false := by
  rw [fenceJson_cons]
  simp [List.isPrefixOf]
  exact fun h => absurd h (by decide)

lemma no_fj_in_wrapFence (P : Str) (hbt : ∀ c ∈ P, c ≠ btk) :
    pyContains fenceJson (lowerPy (wrapFence P)) = false := by
  have hmem : ∀ c ∈ '\n' :: (lowerPy P ++ ['\n']), c ≠ btk := by
    intro c hc
    rcases List.mem_cons.mp hc with h1 | h1
    · subst h1; decide
    · rcases List.mem_append.mp h1 with h2 | h2
      · exact lowerPy_btkfree P hbt c h2
      · simp at h2; subst h2; decide
  have hreg : findFrom fenceJson ('\n' :: (lowerPy P ++ ('\n' :: fence3))) = none := by
    rw [show '\n' :: (lowerPy P ++ ('\n' :: fence3)) = ('\n' :: (lowerPy P ++ ['\n'])) ++ fence3
          from by simp]
    rw [fenceJson_cons, findFrom_btk_skip _ _ _ hmem,
        ← fenceJson_cons, show findFrom fenceJson fence3 = none from by decide]
    rfl
  simp only [fence3_cons, List.cons_append, List.nil_append] at hreg
  unfold pyContains
  rw [lower_wrapFence, fence3_cons]
  simp only [List.cons_append, List.nil_append]
  rw [findFrom_cons_of_not_pre _ _ _ (np_fj_1 _),
      findFrom_cons_of_not_pre _ _ _ (np_fj_2 _),
      findFrom_cons_of_not_pre _ _ _ (np_fj_3 _),
      hreg]
  rfl

end ExtractLemmas

section ExtractLemmas2

lemma extract_wrapFence (P : Str) (hbt : ∀ c ∈ P, c ≠ btk) (hst : pyStrip P = P) :
    extractJson (wrapFence P) = P := by
  have hc1 := no_fj_in_wrapFence P hbt
  have hc2 : pyContains fence3 (wrapFence P) = true := by
    unfold pyContains
    rw [wrapFence_decomp, findFrom_of_prefix _ _ (isPrefixOf_append_self _ _)]
    rfl
  have hfind : pyFind fence3 (wrapFence P) = some 0 := by
    unfold pyFind
    rw [wrapFence_decomp, findFrom_of_prefix _ _ (isPrefixOf_append_self _ _)]
  have hsplit : wrapFence P = (fence3 ++ ('\n' :: (P ++ ['\n']))) ++ fence3 := by
    rw [wrapFence_decomp]
    simp
  have hrf : rfindPy fence3 (wrapFence P) = some (P.length + 5) := by
    rw [hsplit, rfindPy_append_self]
    simp [fence3_len]
    omega
  have htake : (wrapFence P).take (P.length + 5) = fence3 ++ ('\n' :: (P ++ ['\n'])) := by
    rw [hsplit]
    exact List.take_left' (by simp [fence3_len]; omega)
  have hslice : pySliceOpt (wrapFence P) 3 (some (P.length + 5)) = '\n' :: (P ++ ['\n']) := by
    show List.drop 3 (List.take (P.length + 5) (wrapFence P)) = _
    rw [htake, List.drop_left' fence3_len]
  unfold extractJson
  rw [if_neg (by simp [hc1]), if_pos hc2, hfind]
  show pyStrip (pySliceOpt (wrapFence P) 3 (rfindPy fence3 (wrapFence P))) = P
  rw [hrf, hslice, strip_wrap P hst]

lemma extract_bare (P : Str) (hbt : ∀ c ∈ P, c ≠ btk) : extractJson P = P := by
  have h1 : pyContains fenceJson (lowerPy P) = false := by
    unfold pyContains
    rw [fenceJson_cons, findFrom_none_btkfree _ _ (lowerPy_btkfree P hbt)]
    rfl
  have h2 : pyContains fence3 P = false := by
    unfold pyContains
    rw [fence3_cons, findFrom_none_btkfree _ _ hbt]
    rfl
  unfold extractJson
  rw [if_neg (by simp [h1]), if_neg (by simp [h2])]

end ExtractLemmas2

lemma gitFree_prune (t : DirTree) : gitFreeT (pruneGit t) = true := by
  rw [gitFreeT, pruneGit, List.all_eq_true]
  intro e he
  exact (List.mem_filter.mp he).2

/-- C7 (corrected).  For payloads free of backtick characters (and carrying no
surrounding whitespace), the PARSE step extracts the same text — and hence
parses to the same structure — whether the response wraps the payload in a
```json fenced block, an untagged fenced block, or no fencing at all; the
strategies are tried in exactly that order (the definition of `extractJson`).
The backtick-freedom hypothesis is forced by `few_c7_counterexample`: a JSON
payload containing fence markers parses differently across the wrappings. -/
theorem few_c7_parse_extraction (P : Str) (hbt : ∀ c ∈ P, c ≠ btk) (hst : pyStrip P = P) :
    extractJson (wrapJsonFence P) = P ∧ extractJson (wrapFence P) = P ∧ extractJson P = P ∧
    interpretParse (wrapJsonFence P) = jparse P ∧ interpretParse (wrapFence P) = jparse P ∧
    interpretParse P = jparse P := by
  have h1 := extract_wrapJson P hbt hst
  have h2 := extract_wrapFence P hbt hst
  have h3 := extract_bare P hbt
  exact ⟨h1, h2, h3, by rw [interpretParse, h1], by rw [interpretParse, h2],
         by rw [interpretParse, h3]⟩

/-- C7 witness: the payload `[1, 2]` parses identically in all three
wrappings. -/
theorem few_c7_parse_extraction_witness :
    extractJson (wrapJsonFence (tl ("[1, 2]"))) = tl ("[1, 2]") ∧
    extractJson (wrapFence (tl ("[1, 2]"))) = tl ("[1, 2]") ∧
    extractJson (tl ("[1, 2]")) = tl ("[1, 2]") ∧
    interpretParse (wrapJsonFence (tl ("[1, 2]"))) = jparse (tl ("[1, 2]")) ∧
    interpretParse (wrapFence (tl ("[1, 2]"))) = jparse (tl ("[1, 2]")) ∧
    interpretParse (tl ("[1, 2]")) = jparse (tl ("[1, 2]")) :=
  few_c7_parse_extraction (tl ("[1, 2]")) (by decide) (by decide)

/-- C7 counterexample: for the JSON payload `[1, "``` 2 ```"]` (a valid JSON
array), the bare response parses to the number 2 — the generic-fence branch
fires on the backticks inside the string — while the ```json-wrapped response
fails to parse: the claim's universal "all three yield the same parsed
structure" is false as stated. -/
theorem few_c7_counterexample :
    interpretParse (tl ("[1, \"``` 2 ```\"]")) = .ok (.jnum 2) ∧
    interpretParse (wrapJsonFence (tl ("[1, \"``` 2 ```\"]"))) =
      .error (.unterminatedStr 4) := by
  exact ⟨by rfl, by rfl⟩

/-- C5 (corrected, amended form).  Resolution never raises: a reference in
URL form whose path has an empty final segment resolves to a
`ResolvedPackage` whose canonical name is the empty string — no
`InvalidReference` failure exists anywhere in `get_repo_url_and_name`, whose
return type is a plain pair. -/
theorem few_c5_empty_name_returned (u : Str)
    (h1 : pyContains schemeSep u = true)
    (h2 : pyBasename (pyUrlPath u) = []) :
    get_repo_url_and_name u = (u, []) := by
  unfold get_repo_url_and_name
  rw [if_pos h1, h2]
  rfl

/-- C5 witness: the URL `https://github.com/peterbaileyct/` resolves to an
empty canonical name. -/
theorem few_c5_empty_name_returned_witness :
    get_repo_url_and_name (tl ("https://github.com/peterbaileyct/")) =
      (tl ("https://github.com/peterbaileyct/"), []) :=
  few_c5_empty_name_returned (tl ("https://github.com/peterbaileyct/"))
    (by decide) (by decide)

/-- C5 counterexample: resolving `https://github.com/peterbaileyct/` returns
normally with an empty canonical name, instead of failing with
`InvalidReference` as the claim states. -/
theorem few_c5_counterexample :
    get_repo_url_and_name (tl ("https://github.com/peterbaileyct/")) =
      (tl ("https://github.com/peterbaileyct/"), []) := by
  decide

/-- C8 (confirmed).  Whenever the synchronization part of `handle_listen`
completes, the ProjectWord directory for the package is exactly the
`.git`-pruned copy of the cache entry the git step produced — independent of
whatever ProjectWord existed before (full replacement), and free of
version-control metadata. -/
theorem few_c8_sync_replaces_project_word (name : String) (st : SyncSt)
    (pr cr : Option DirTree) (st2 : SyncSt)
    (h : handle_listen_sync name st pr cr = .doneS st2) :
    ∃ entry, syncSource name st pr cr = some entry ∧
      lookupA name st2.cache = some entry ∧
      lookupA name st2.proj = some (pruneGit entry) ∧
      gitFreeT (pruneGit entry) = true := by
  unfold handle_listen_sync at h
  unfold syncSource
  cases hc : lookupA name st.cache with
  | some told =>
    rw [hc] at h
    cases pr with
    | none => simp at h
    | some t =>
      simp only [SyncRes.doneS.injEq] at h
      refine ⟨t, rfl, ?_, ?_, gitFree_prune t⟩
      · rw [← h, lookupA_setA_self]
      · rw [← h]
        show lookupA name (_ ++ [(name, pruneGit t)]) = _
        rw [lookupA_append]
        cases hp : lookupA name st.proj with
        | some _ => simp [lookupA_eraseA, lookupA]
        | none => simp [hp, lookupA]
  | none =>
    rw [hc] at h
    cases cr with
    | none => simp at h
    | some t =>
      simp only [SyncRes.doneS.injEq] at h
      refine ⟨t, rfl, ?_, ?_, gitFree_prune t⟩
      · rw [← h, lookupA_append, hc]
        simp [lookupA]
      · rw [← h]
        show lookupA name (_ ++ [(name, pruneGit t)]) = _
        rw [lookupA_append]
        cases hp : lookupA name st.proj with
        | some _ => simp [lookupA_eraseA, lookupA]
        | none => simp [hp, lookupA]


/-- C8 witness: syncing `w` over a cache entry holding a `.git` directory
replaces the stale ProjectWord with the pruned copy. -/
theorem few_c8_sync_replaces_project_word_witness :
    ∃ entry, syncSource "w" stC8 (some treeC8) none = some entry ∧
      lookupA "w" (SyncSt.cache ⟨setA "w" treeC8 stC8.cache,
        eraseA "w" stC8.proj ++ [("w", pruneGit treeC8)]⟩) = some entry ∧
      lookupA "w" (SyncSt.proj ⟨setA "w" treeC8 stC8.cache,
        eraseA "w" stC8.proj ++ [("w", pruneGit treeC8)]⟩) = some (pruneGit entry) ∧
      gitFreeT (pruneGit entry) = true :=
  few_c8_sync_replaces_project_word "w" stC8 (some treeC8) none _ (by rfl)

/-- C10 (confirmed).  If the git step of the synchronization fails — the
`pull` for a cached package, or the `clone` for an uncached one —
`run_command` exits the process before the removal-and-copy steps run, so the
project's words (in particular any pre-existing ProjectWord for the package)
are exactly as they were. -/
theorem few_c10_git_failure_leaves_project_word (name : String) (st : SyncSt)
    (pr cr : Option DirTree) :
    ((lookupA name st.cache).isSome = true →
      handle_listen_sync name st none cr = .exited st.proj) ∧
    (lookupA name st.cache = none →
      handle_listen_sync name st pr none = .exited st.proj) := by
  constructor
  · intro h
    unfold handle_listen_sync
    cases hc : lookupA name st.cache with
    | some _ => rfl
    | none => rw [hc] at h; simp at h
  · intro h
    unfold handle_listen_sync
    rw [h]

/-- C10 witness: with package `w` cached and a stale ProjectWord present, a
failing pull exits with the project words untouched. -/
theorem few_c10_git_failure_leaves_project_word_witness :
    handle_listen_sync "w" stC8 none none = .exited stC8.proj :=
  (few_c10_git_failure_leaves_project_word "w" stC8 none none).1 (by decide)

/-- C1 (code bug).  The authentication handler deletes
`~/.few/.gemini.key`, but `get_api_key` caches the credential at
`~/few/.gemini.key` — a different path.  Starting from a cached (invalid)
key, two loop iterations run the handler twice, yet the credential file
`get_api_key` reads still exists, no new key is ever prompted for
(`prompts = 0`), and the same key is re-sent (`gens = 2`): the pipeline does
not re-acquire a credential, contradicting the claim that the cached
credential file no longer exists after the handler runs. -/
theorem few_c1_wrong_key_path_deleted :
    interpret_project envC1 2 fsC1 ⟨0, 0, 0⟩ = .fuelOut fsC1 ⟨0, 2, 2⟩ ∧
    lookupA fewKeyPath fsC1 = some (tl ("BADKEY")) ∧
    fewKeyPath ≠ dotFewKeyPath :=
  ⟨by rfl, by rfl, by decide⟩

/-- C4 (corrected, amended form).  A failure of the first log write does not
leave the pipeline unaffected: the exception propagates out of
`append_to_log` (which has no handler of its own) into the generic `except`
branch, which aborts the pipeline with the error surfaced, before any
generation call is made. -/
theorem few_c4_log_failure_aborts (env : GenEnv) (fs : FS) (x : PyExn) (f : Nat)
    (hlog : env.logRes 0 = some x) (h429 : x.http429 = false)
    (hauth : authSignal x.msg = false) :
    (interpret_project env (f + 1) fs ⟨0, 0, 0⟩).otherErrOf = some x ∧
    (interpret_project env (f + 1) fs ⟨0, 0, 0⟩).countersOf.gens = 0 := by
  unfold interpret_project iterBody get_api_key
  cases hk : lookupA fewKeyPath fs <;>
    simp [appendLog, hlog, h429, hauth, IOut.otherErrOf, IOut.countersOf]

/-- C4 witness: the concrete disk-full log failure aborts the pipeline with
zero generation calls. -/
theorem few_c4_log_failure_aborts_witness :
    (interpret_project envC4fail 1 [] ⟨0, 0, 0⟩).otherErrOf = some diskFullExn ∧
    (interpret_project envC4fail 1 [] ⟨0, 0, 0⟩).countersOf.gens = 0 :=
  few_c4_log_failure_aborts envC4fail [] diskFullExn 0 (by rfl) (by rfl) (by decide)

/-- C4 counterexample: two runs that differ only in whether the first log
write raises end differently — aborted with the log error versus completed —
refuting the claim that the pipeline proceeds exactly as if the log write had
succeeded. -/
theorem few_c4_counterexample :
    interpret_project envC4fail 1 [] ⟨0, 0, 0⟩ =
      .abortedOther diskFullExn [(fewKeyPath, tl ("K"))] ⟨1, 0, 1⟩ ∧
    interpret_project envC4ok 1 [] ⟨0, 0, 0⟩ =
      .done [] [(fewKeyPath, tl ("K"))] ⟨1, 1, 2⟩ :=
  ⟨by rfl, by rfl⟩

/-- C6 (confirmed).  When every generation response fails to parse, the
pipeline makes exactly 3 generation calls in total (the initial one plus two
repair attempts; `gens = 3`) and then aborts reporting the parse error of the
third (last) response — not a generic failure. -/
theorem few_c6_three_attempts_then_last_error (ki : Nat → Str) (r : Nat → Str) (fs : FS)
    (e0 e1 e2 : JErr)
    (h0 : jparse (extractJson (r 0)) = .error e0)
    (h1 : jparse (extractJson (r 1)) = .error e1)
    (h2 : jparse (extractJson (r 2)) = .error e2) :
    (interpret_project ⟨ki, fun i => .ok (r i), fun _ => none⟩ 1 fs
        ⟨0, 0, 0⟩).parseErrOf = some e2 ∧
    (interpret_project ⟨ki, fun i => .ok (r i), fun _ => none⟩ 1 fs
        ⟨0, 0, 0⟩).countersOf.gens = 3 := by
  unfold interpret_project iterBody get_api_key
  cases hk : lookupA fewKeyPath fs <;>
    simp [appendLog, retryGo, h0, h1, h2, IOut.parseErrOf, IOut.countersOf]

/-- C6 witness: three concretely malformed responses (`x`, `[1,`, `{`) are
each tried once and the third response's error is the one reported. -/
theorem few_c6_three_attempts_then_last_error_witness :
    (interpret_project ⟨fun _ => tl ("K"), fun i => .ok (respC6 i), fun _ => none⟩ 1 []
        ⟨0, 0, 0⟩).parseErrOf = some (.propName 1) ∧
    (interpret_project ⟨fun _ => tl ("K"), fun i => .ok (respC6 i), fun _ => none⟩ 1 []
        ⟨0, 0, 0⟩).countersOf.gens = 3 :=
  few_c6_three_attempts_then_last_error (fun _ => tl ("K")) respC6 []
    (.expectingValue 0) (.expectingValue 3) (.propName 1) (by rfl) (by rfl) (by rfl)

section YDictLemmas

lemma ydictLookupLast_cons (k k2 : String) (v : YVal) (r : List (String × YVal)) :
    ydictLookupLast k ((k2, v) :: r) =
      (match ydictLookupLast k r with
       | some x => some x
       | none => if k2 = k then some v else none) := rfl

lemma ydictLookupLast_cons_ne (k k2 : String) (v : YVal) (r : List (String × YVal))
    (h : k2 ≠ k) :
    ydictLookupLast k ((k2, v) :: r) = ydictLookupLast k r := by
  rw [ydictLookupLast_cons]
  cases hr : ydictLookupLast k r <;> simp [h]

lemma ydictReplace_cons_pos (k k2 : String) (v v2 : YVal) (r : List (String × YVal))
    (h : k2 = k) :
    ydictReplace k v ((k2, v2) :: r) = (k2, v) :: ydictReplace k v r := by
  simp [ydictReplace, h]

lemma ydictReplace_cons_neg (k k2 : String) (v v2 : YVal) (r : List (String × YVal))
    (h : ¬ k2 = k) :
    ydictReplace k v ((k2, v2) :: r) = (k2, v2) :: ydictReplace k v r := by
  simp [ydictReplace, h]

lemma ydictLookupLast_replace (k : String) (v : YVal) (d : List (String × YVal)) :
    ydictLookupLast k (ydictReplace k v d) =
      if (ydictLookupLast k d).isSome then some v else none := by
  induction d with
  | nil => simp [ydictReplace, ydictLookupLast]
  | cons a r ih =>
    obtain ⟨k2, v2⟩ := a
    by_cases hk : k2 = k
    · rw [ydictReplace_cons_pos _ _ _ _ _ hk, ydictLookupLast_cons, ih, ydictLookupLast_cons]
      cases hr : ydictLookupLast k r <;> simp [hk, hr]
    · rw [ydictReplace_cons_neg _ _ _ _ _ hk, ydictLookupLast_cons_ne _ _ _ _ hk,
          ydictLookupLast_cons_ne _ _ _ _ hk, ih]

lemma ydictLookupLast_append_self (k : String) (v : YVal) (d : List (String × YVal)) :
    ydictLookupLast k (d ++ [(k, v)]) = some v := by
  induction d with
  | nil => simp [ydictLookupLast]
  | cons a r ih =>
    obtain ⟨k2, v2⟩ := a
    rw [List.cons_append, ydictLookupLast_cons, ih]

lemma ydictLookupLast_set_self (k : String) (v : YVal) (d : List (String × YVal)) :
    ydictLookupLast k (ydictSet k v d) = some v := by
  unfold ydictSet
  by_cases h : (ydictLookupLast k d).isSome
  · rw [if_pos h, ydictLookupLast_replace, if_pos h]
  · rw [if_neg h, ydictLookupLast_append_self]

lemma ydictLookupLast_replace_other (k k2 : String) (v : YVal) (d : List (String × YVal))
    (h : k ≠ k2) :
    ydictLookupLast k (ydictReplace k2 v d) = ydictLookupLast k d := by
  induction d with
  | nil => simp [ydictReplace]
  | cons a r ih =>
    obtain ⟨a1, a2⟩ := a
    by_cases ha : a1 = k2
    · subst ha
      rw [ydictReplace_cons_pos _ _ _ _ _ rfl, ydictLookupLast_cons_ne _ _ _ _ (Ne.symm h),
          ydictLookupLast_cons_ne _ _ _ _ (Ne.symm h)]
      exact ih
    · rw [ydictReplace_cons_neg _ _ _ _ _ ha, ydictLookupLast_cons, ydictLookupLast_cons, ih]

lemma ydictLookupLast_append_other (k k2 : String) (v : YVal) (d : List (String × YVal))
    (h : k ≠ k2) :
    ydictLookupLast k (d ++ [(k2, v)]) = ydictLookupLast k d := by
  induction d with
  | nil => simp [ydictLookupLast, Ne.symm h]
  | cons a r ih =>
    obtain ⟨a1, a2⟩ := a
    rw [List.cons_append, ydictLookupLast_cons, ydictLookupLast_cons, ih]

lemma ydictLookupLast_set_other (k k2 : String) (v : YVal) (d : List (String × YVal))
    (h : k ≠ k2) :
    ydictLookupLast k (ydictSet k2 v d) = ydictLookupLast k d := by
  unfold ydictSet
  by_cases hs : (ydictLookupLast k2 d).isSome
  · rw [if_pos hs, ydictLookupLast_replace_other _ _ _ _ h]
  · rw [if_neg hs, ydictLookupLast_append_other _ _ _ _ h]

lemma ylistHasStr_append_self (n : String) (l : List YVal) :
    ylistHasStr n (l ++ [.ystr n]) = true := by
  induction l with
  | nil => simp [ylistHasStr]
  | cons v r ih =>
    cases v <;> simp [ylistHasStr, ih]

lemma ylistCountStr_zero (n : String) (l : List YVal) (h : ylistHasStr n l = false) :
    ylistCountStr n l = 0 := by
  induction l with
  | nil => rfl
  | cons v r ih =>
    cases v with
    | ystr x =>
      simp only [ylistHasStr, Bool.or_eq_false_iff] at h
      simp only [ylistCountStr]
      rw [if_neg (by simpa using h.1), ih h.2]
    | ynull => exact ih h
    | ybool b => exact ih h
    | ynum m => exact ih h
    | ylist l2 => exact ih h
    | ydict d2 => exact ih h

lemma ylistCountStr_append_self (n : String) (l : List YVal) :
    ylistCountStr n (l ++ [.ystr n]) = ylistCountStr n l + 1 := by
  induction l with
  | nil => simp [ylistCountStr]
  | cons v r ih =>
    cases v <;> simp [ylistCountStr, ih] <;> omega

end YDictLemmas

/-- C3 (corrected, amended form).  On a manifest whose content fails to
parse, `add_package_to_litany` warns and proceeds with the empty manifest —
it writes `words: [n]` and does not abort — but the bulk litany operation
(`handle_litany`) does NOT recover: it prints the error and exits the
process with status 1. -/
theorem few_c3_parse_failure_paths (s e : Str) (load : Str → Except Str YVal)
    (dump : YVal → Str) (n : String)
    (hne : (pyStrip s).isEmpty = false) (hload : load s = .error e) :
    add_package_to_litany n (some s) load dump =
      .wrote (dump (.ydict [("words", .ylist [.ystr n])])) ∧
    handle_litany_load (some s) load = .exitedErr := by
  constructor
  · unfold add_package_to_litany
    simp only [hne, Bool.false_eq_true, if_false, hload]
    rfl
  · simp [handle_litany_load, hload]

/-- C3 witness: a concrete unparseable manifest makes `add_package_to_litany`
re-initialize and proceed while `handle_litany` exits. -/
theorem few_c3_parse_failure_paths_witness :
    add_package_to_litany "pkg" (some (tl ("words: ["))) loadFailC3 (fun _ => tl ("D")) =
      .wrote (tl ("D")) ∧
    handle_litany_load (some (tl ("words: ["))) loadFailC3 = .exitedErr :=
  few_c3_parse_failure_paths (tl ("words: ["))
    (tl ("could not determine a constructor for the tag")) loadFailC3
    (fun _ => tl ("D")) "pkg" (by decide) (by rfl)

/-- C3 counterexample: with a manifest whose content fails to parse, the bulk
litany operation aborts (exits 1) instead of proceeding with an empty
manifest — the claim's "never aborts the calling operation ... including the
bulk litany operation" is false. -/
theorem few_c3_counterexample :
    handle_litany_load (some (tl ("words: ["))) loadFailC3 = .exitedErr := by rfl

/-- C9 (confirmed).  Starting from a manifest mapping whose `words` entry is
a list not containing `n`, adding `n` appends it at the end (first-insertion
position) and persists; adding it again writes nothing; the final `words`
list carries exactly one occurrence of `n`, at the position of the first
insertion, and every other key of the mapping is unchanged.  The loader and
dumper oracles are assumed consistent on the one document the second run
re-reads (`h5`, `h6`), which is how `yaml.safe_load`/`yaml.dump` behave. -/
theorem few_c9_add_idempotent (load : Str → Except Str YVal) (dump : YVal → Str)
    (s : Str) (n : String) (kvs : List (String × YVal)) (ws : List YVal)
    (h1 : (pyStrip s).isEmpty = false)
    (h2 : load s = .ok (.ydict kvs))
    (h3 : ydictLookupLast "words" kvs = some (.ylist ws))
    (h4 : ylistHasStr n ws = false)
    (h5 : (pyStrip (dump (addedWords n ws kvs))).isEmpty = false)
    (h6 : load (dump (addedWords n ws kvs)) = .ok (addedWords n ws kvs)) :
    add_package_to_litany n (some s) load dump = .wrote (dump (addedWords n ws kvs)) ∧
    ylistCountStr n (ws ++ [.ystr n]) = 1 ∧
    (∀ k, k ≠ "words" →
      ydictLookupLast k (ydictSet "words" (.ylist (ws ++ [.ystr n])) kvs) =
        ydictLookupLast k kvs) ∧
    add_package_to_litany n (some (dump (addedWords n ws kvs))) load dump = .kept := by
  have hkws : ydictLookupLast "words"
      (ydictSet "words" (.ylist (ws ++ [.ystr n])) kvs) = some (.ylist (ws ++ [.ystr n])) :=
    ydictLookupLast_set_self _ _ _
  refine ⟨?_, ?_, ?_, ?_⟩
  · unfold add_package_to_litany ensureWords yIn
    simp [h1, h2, h3, h4, addedWords]
  · rw [ylistCountStr_append_self, ylistCountStr_zero n ws h4]
  · intro k hk
    exact ydictLookupLast_set_other k "words" _ kvs hk
  · have h5b : pyStrip (dump (addedWords n ws kvs)) ≠ [] := by
      intro hc
      rw [hc] at h5
      simp at h5
    simp only [addedWords] at h5b h6
    unfold add_package_to_litany ensureWords yIn
    simp [h5b, h6, addedWords, hkws, ylistHasStr_append_self]

/-- C9 witness: adding `b` to the manifest `words: [a]` appends it once;
re-adding it writes nothing. -/
theorem few_c9_add_idempotent_witness :
    add_package_to_litany "b" (some (tl ("words: [a]"))) loadC9 dumpC9 =
      .wrote (dumpC9 (addedWords "b" [.ystr "a"] kvsC9)) ∧
    ylistCountStr "b" ([.ystr "a"] ++ [.ystr "b"]) = 1 ∧
    (∀ k, k ≠ "words" →
      ydictLookupLast k (ydictSet "words" (.ylist ([.ystr "a"] ++ [.ystr "b"])) kvsC9) =
        ydictLookupLast k kvsC9) ∧
    add_package_to_litany "b" (some (dumpC9 (addedWords "b" [.ystr "a"] kvsC9))) loadC9 dumpC9 =
      .kept :=
  few_c9_add_idempotent loadC9 dumpC9 (tl ("words: [a]")) "b" kvsC9 [.ystr "a"]
    (by rfl) (by rfl) (by rfl) (by rfl) (by rfl) (by rfl)

section BootLemmas

lemma splitNl_ne_nil (l : Str) : splitNl l ≠ [] := by
  cases l with
  | nil => simp [splitNl]
  | cons c t =>
    unfold splitNl
    by_cases h : c = '\n' <;> simp [h]

lemma splitNl_cons_nl (t : Str) : splitNl ('\n' :: t) = [] :: splitNl t := by
  simp [splitNl]

lemma splitNl_cons_other (c : Char) (t : Str) (h : ¬ c = '\n') :
    splitNl (c :: t) = (c :: (splitNl t).headD []) :: (splitNl t).tail := by
  simp [splitNl, h]

lemma splitNl_append_nl (a b : Str) : splitNl (a ++ '\n' :: b) = splitNl a ++ splitNl b := by
  induction a with
  | nil => simp [splitNl]
  | cons c t ih =>
    by_cases hc : c = '\n'
    · subst hc
      rw [List.cons_append, splitNl_cons_nl, splitNl_cons_nl, ih]
      simp
    · rw [List.cons_append, splitNl_cons_other c _ hc, splitNl_cons_other c t hc, ih]
      cases hsp : splitNl t with
      | nil => exact absurd hsp (splitNl_ne_nil t)
      | cons h0 t0 => simp

lemma mem_pyLines (x l : Str) (hx : x ∈ splitNl l) (hne : x ≠ []) : x ∈ pyLines l := by
  unfold pyLines
  by_cases h : (splitNl l).getLast? = some ([] : Str)
  · rw [if_pos h]
    have hfull := List.dropLast_append_getLast? ([] : Str) h
    rw [← hfull] at hx
    rcases List.mem_append.mp hx with h1 | h1
    · exact h1
    · simp at h1
      exact absurd h1 hne
  · rw [if_neg h]
    exact hx

lemma mem_splitNl_of_pyLines (x l : Str) (hx : x ∈ pyLines l) : x ∈ splitNl l := by
  unfold pyLines at hx
  by_cases h : (splitNl l).getLast? = some ([] : Str)
  · rw [if_pos h] at hx
    exact List.dropLast_subset _ hx
  · rwa [if_neg h] at hx

lemma mem_strip_lines_of_base (base rest e : Str)
    (he : e ∈ (pyLines base).map pyStrip) (hne : e ≠ []) :
    e ∈ (pyLines (base ++ '\n' :: rest)).map pyStrip := by
  obtain ⟨x, hx, hsx⟩ := List.mem_map.mp he
  have hxne : x ≠ [] := by
    intro hc
    subst hc
    exact hne (hsx.symm.trans rfl)
  have hx2 : x ∈ splitNl (base ++ '\n' :: rest) := by
    rw [splitNl_append_nl]
    exact List.mem_append_left _ (mem_splitNl_of_pyLines x base hx)
  exact List.mem_map.mpr ⟨x, mem_pyLines x _ hx2 hxne, hsx⟩

lemma mem_strip_lines_last (base e : Str) (hsp : splitNl e = [e])
    (hse : pyStrip e = e) (hne : e ≠ []) :
    e ∈ (pyLines (base ++ '\n' :: e)).map pyStrip := by
  have hx : e ∈ splitNl (base ++ '\n' :: e) := by
    rw [splitNl_append_nl, hsp]
    exact List.mem_append_right _ (by simp)
  exact List.mem_map.mpr ⟨e, mem_pyLines e _ hx hne, hse⟩

lemma mem_strip_lines_mid (base rest e : Str) (hsp : splitNl e = [e])
    (hse : pyStrip e = e) (hne : e ≠ []) :
    e ∈ (pyLines (base ++ '\n' :: (e ++ '\n' :: rest))).map pyStrip := by
  have hx : e ∈ splitNl (base ++ '\n' :: (e ++ '\n' :: rest)) := by
    rw [splitNl_append_nl, splitNl_append_nl, hsp]
    exact List.mem_append_right _ (List.mem_append_left _ (by simp))
  exact List.mem_map.mpr ⟨e, mem_pyLines e _ hx hne, hse⟩

lemma mem_strip_lines_last2 (base e1 e2 : Str) (hsp2 : splitNl e2 = [e2])
    (hse2 : pyStrip e2 = e2) (hne2 : e2 ≠ []) :
    e2 ∈ (pyLines (base ++ '\n' :: (e1 ++ '\n' :: e2))).map pyStrip := by
  have hx : e2 ∈ splitNl (base ++ '\n' :: (e1 ++ '\n' :: e2)) := by
    rw [splitNl_append_nl, splitNl_append_nl, hsp2]
    exact List.mem_append_right _ (List.mem_append_right _ (by simp))
  exact List.mem_map.mpr ⟨e2, mem_pyLines e2 _ hx hne2, hse2⟩

lemma entries_in_content (b : Str) :
    ∀ e ∈ GITIGNORE_ENTRIES,
      e ∈ (pyLines (b ++ (GITIGNORE_ENTRIES.filter
            (fun x => ! ((pyLines b).map pyStrip).contains x)).foldl
            (fun acc x => acc ++ '\n' :: x) [])).map pyStrip := by
  have hsp1 : splitNl (tl (".few/")) = [tl (".few/")] := by decide
  have hsp2 : splitNl (tl ("few.litany.yaml")) = [tl ("few.litany.yaml")] := by decide
  have hst1 : pyStrip (tl (".few/")) = tl (".few/") := by decide
  have hst2 : pyStrip (tl ("few.litany.yaml")) = tl ("few.litany.yaml") := by decide
  have hne1 : tl (".few/") ≠ [] := by decide
  have hne2 : tl ("few.litany.yaml") ≠ [] := by decide
  intro e he
  have hed : e = tl (".few/") ∨ e = tl ("few.litany.yaml") := by
    simpa [GITIGNORE_ENTRIES] using he
  by_cases h1 : ((pyLines b).map pyStrip).contains (tl (".few/")) <;>
    by_cases h2 : ((pyLines b).map pyStrip).contains (tl ("few.litany.yaml"))
  · have hadd : (GITIGNORE_ENTRIES.filter
        (fun x => ! ((pyLines b).map pyStrip).contains x)).foldl
        (fun acc x => acc ++ '\n' :: x) [] = ([] : Str) := by
      simp only [GITIGNORE_ENTRIES, List.filter_cons, List.filter_nil, h1, h2,
        Bool.not_true, Bool.not_false, Bool.false_eq_true, Bool.true_eq_false,
        if_true, if_false, List.foldl_cons, List.foldl_nil, List.nil_append]
    rw [hadd, List.append_nil]
    rcases hed with he1 | he1 <;> subst he1
    · exact List.elem_iff.mp h1
    · exact List.elem_iff.mp h2
  · have hadd : (GITIGNORE_ENTRIES.filter
        (fun x => ! ((pyLines b).map pyStrip).contains x)).foldl
        (fun acc x => acc ++ '\n' :: x) [] = '\n' :: tl ("few.litany.yaml") := by
      simp only [GITIGNORE_ENTRIES, List.filter_cons, List.filter_nil, h1, h2,
        Bool.not_true, Bool.not_false, Bool.false_eq_true, Bool.true_eq_false,
        if_true, if_false, List.foldl_cons, List.foldl_nil, List.nil_append]
    rw [hadd]
    rcases hed with he1 | he1 <;> subst he1
    · exact mem_strip_lines_of_base b _ _ (List.elem_iff.mp h1) hne1
    · exact mem_strip_lines_last b _ hsp2 hst2 hne2
  · have hadd : (GITIGNORE_ENTRIES.filter
        (fun x => ! ((pyLines b).map pyStrip).contains x)).foldl
        (fun acc x => acc ++ '\n' :: x) [] = '\n' :: tl (".few/") := by
      simp only [GITIGNORE_ENTRIES, List.filter_cons, List.filter_nil, h1, h2,
        Bool.not_true, Bool.not_false, Bool.false_eq_true, Bool.true_eq_false,
        if_true, if_false, List.foldl_cons, List.foldl_nil, List.nil_append]
    rw [hadd]
    rcases hed with he1 | he1 <;> subst he1
    · exact mem_strip_lines_last b _ hsp1 hst1 hne1
    · exact mem_strip_lines_of_base b _ _ (List.elem_iff.mp h2) hne2
  · have hadd : (GITIGNORE_ENTRIES.filter
        (fun x => ! ((pyLines b).map pyStrip).contains x)).foldl
        (fun acc x => acc ++ '\n' :: x) [] =
        ('\n' :: tl (".few/")) ++ ('\n' :: tl ("few.litany.yaml")) := by
      simp only [GITIGNORE_ENTRIES, List.filter_cons, List.filter_nil, h1, h2,
        Bool.not_true, Bool.not_false, Bool.false_eq_true, Bool.true_eq_false,
        if_true, if_false, List.foldl_cons, List.foldl_nil, List.nil_append]
    rw [hadd]
    rcases hed with he1 | he1 <;> subst he1
    · exact mem_strip_lines_mid b _ _ hsp1 hst1 hne1
    · exact mem_strip_lines_last2 b (tl (".few/")) _ hsp2 hst2 hne2

lemma existing_eq_base (fs : BootFS) :
    (match lookupA ".gitignore" fs.files with
     | some content => (pyLines content).map pyStrip
     | none => ([] : List Str)) =
      (pyLines ((lookupA ".gitignore" fs.files).getD [])).map pyStrip := by
  cases hg : lookupA ".gitignore" fs.files <;> simp [hg] <;> rfl

lemma update_gitignore_files (fs : BootFS) :
    (update_gitignore fs).files =
      setA ".gitignore"
        ((lookupA ".gitignore" fs.files).getD [] ++
          (GITIGNORE_ENTRIES.filter
            (fun x => ! ((pyLines ((lookupA ".gitignore" fs.files).getD [])).map pyStrip).contains x)).foldl
            (fun acc x => acc ++ '\n' :: x) []) fs.files := by
  unfold update_gitignore
  rw [existing_eq_base]

lemma entries_in_update (fs : BootFS) :
    ∃ cg, lookupA ".gitignore" (update_gitignore fs).files = some cg ∧
      ∀ e ∈ GITIGNORE_ENTRIES, e ∈ (pyLines cg).map pyStrip := by
  rw [update_gitignore_files]
  exact ⟨_, lookupA_setA_self _ _ _, entries_in_content _⟩

end BootLemmas

section BootLemmas2

lemma readme_marker_prefix (c0 : Str) :
    pyStartsWith (trimLeftPy (README_COMMENT ++ c0)) (pyStrip README_COMMENT) = true := by
  have h2 : trimLeftPy (README_COMMENT ++ c0) = README_COMMENT ++ c0 := by
    rw [show README_COMMENT =
          '#' :: tl (" CARBON-BASED-LIFEFORM-NOTICE: README.md is for humans. LLMs should consult PARSEME.md.\n")
        from by decide]
    rw [List.cons_append]
    unfold trimLeftPy
    rw [List.dropWhile_cons_of_neg (by decide)]
  have h1b : README_COMMENT ++ c0 = pyStrip README_COMMENT ++ ('\n' :: c0) := by
    conv_lhs => rw [show README_COMMENT = pyStrip README_COMMENT ++ ['\n'] from by decide]
    simp
  rw [h2, h1b]
  exact isPrefixOf_append_self _ _

lemma update_gitignore_dirs (fs : BootFS) : (update_gitignore fs).dirs = fs.dirs := rfl

lemma update_gitignore_other (k : String) (fs : BootFS) (h : k ≠ ".gitignore") :
    lookupA k (update_gitignore fs).files = lookupA k fs.files := by
  rw [update_gitignore_files]
  exact lookupA_setA_other k ".gitignore" _ fs.files h

lemma update_gitignore_idem (fs : BootFS) :
    update_gitignore (update_gitignore fs) = update_gitignore fs := by
  obtain ⟨cg, hcg, hent⟩ := entries_in_update fs
  have hfiles : (update_gitignore (update_gitignore fs)).files = (update_gitignore fs).files := by
    rw [update_gitignore_files (update_gitignore fs), hcg]
    have c1 : ((pyLines cg).map pyStrip).contains (tl (".few/")) = true :=
      List.elem_iff.mpr (hent (tl (".few/")) (by simp [GITIGNORE_ENTRIES]))
    have c2 : ((pyLines cg).map pyStrip).contains (tl ("few.litany.yaml")) = true :=
      List.elem_iff.mpr (hent (tl ("few.litany.yaml")) (by simp [GITIGNORE_ENTRIES]))
    have hf : GITIGNORE_ENTRIES.filter
        (fun x => ! ((pyLines ((some cg).getD [])).map pyStrip).contains x) = [] := by
      simp only [Option.getD_some, GITIGNORE_ENTRIES, List.filter_cons, c1, c2,
        Bool.not_true, Bool.false_eq_true, if_false, List.filter_nil]
    rw [hf]
    simp only [List.foldl_nil, Option.getD_some, List.append_nil]
    rw [update_gitignore_files fs] at hcg ⊢
    rw [lookupA_setA_self] at hcg
    obtain rfl := Option.some.inj hcg
    exact setA_setA_same _ _ _
  calc update_gitignore (update_gitignore fs)
      = ⟨(update_gitignore (update_gitignore fs)).files,
         (update_gitignore (update_gitignore fs)).dirs⟩ := rfl
    _ = ⟨(update_gitignore fs).files, (update_gitignore fs).dirs⟩ := by
        rw [hfiles, update_gitignore_dirs, update_gitignore_dirs]
    _ = update_gitignore fs := rfl

lemma parsemeStep_post (fs : BootFS) (c : Bool) (r : Option Str) (fs1 : BootFS) (ch : Bool)
    (h : parsemeStep fs c r = some (fs1, ch)) :
    (lookupA "PARSEME.md" fs1.files).isSome = true ∧
    (∀ k, k ≠ "PARSEME.md" → lookupA k fs1.files = lookupA k fs.files) ∧
    fs1.dirs = fs.dirs := by
  unfold parsemeStep at h
  by_cases hp : (lookupA "PARSEME.md" fs.files).isSome
  · rw [if_pos hp] at h
    obtain ⟨rfl, rfl⟩ : fs = fs1 ∧ false = ch := by
      simpa using h
    exact ⟨hp, fun k _ => rfl, rfl⟩
  · rw [if_neg hp] at h
    cases c with
    | false => simp at h
    | true =>
      simp only [if_true] at h
      obtain ⟨hfs, _⟩ : _ ∧ true = ch := by simpa using h
      subst hfs
      refine ⟨by rw [lookupA_setA_self]; rfl, fun k hk => lookupA_setA_other _ _ _ _ hk, rfl⟩

lemma parsemeStep_noop (fs : BootFS) (c : Bool) (r : Option Str)
    (h : (lookupA "PARSEME.md" fs.files).isSome = true) :
    parsemeStep fs c r = some (fs, false) := by
  unfold parsemeStep
  rw [if_pos h]

lemma readmeStep_post (fs fs2 : BootFS) (ch : Bool) (h : readmeStep fs = (fs2, ch)) :
    (∀ cc, lookupA "README.md" fs2.files = some cc →
       pyStartsWith (trimLeftPy cc) (pyStrip README_COMMENT) = true) ∧
    (∀ k, k ≠ "README.md" → lookupA k fs2.files = lookupA k fs.files) ∧
    fs2.dirs = fs.dirs := by
  unfold readmeStep at h
  cases hr : lookupA "README.md" fs.files with
  | none =>
    rw [hr] at h
    obtain ⟨rfl, _⟩ : fs = fs2 ∧ false = ch := by simpa using h
    exact ⟨fun cc hcc => absurd (hr ▸ hcc) (by simp), fun k _ => rfl, rfl⟩
  | some content =>
    rw [hr] at h
    by_cases hs : pyStartsWith (trimLeftPy content) (pyStrip README_COMMENT)
    · obtain ⟨rfl, _⟩ : fs = fs2 ∧ false = ch := by simpa [hs] using h
      refine ⟨fun cc hcc => ?_, fun k _ => rfl, rfl⟩
      rw [hr] at hcc
      obtain rfl := Option.some.inj hcc
      exact hs
    · obtain ⟨hfs, _⟩ : _ ∧ true = ch := by simpa [hs] using h
      subst hfs
      refine ⟨fun cc hcc => ?_, fun k hk => lookupA_setA_other _ _ _ _ hk, rfl⟩
      rw [show lookupA "README.md"
            (setA "README.md" (README_COMMENT ++ content) fs.files) =
            some (README_COMMENT ++ content) from lookupA_setA_self _ _ _] at hcc
      obtain rfl := Option.some.inj hcc
      exact readme_marker_prefix content

lemma readmeStep_noop (fs : BootFS)
    (h : ∀ cc, lookupA "README.md" fs.files = some cc →
       pyStartsWith (trimLeftPy cc) (pyStrip README_COMMENT) = true) :
    readmeStep fs = (fs, false) := by
  unfold readmeStep
  cases hr : lookupA "README.md" fs.files with
  | none => rfl
  | some content => simp [h content hr]

lemma wordsDirStep_post (fs fs3 : BootFS) (ch : Bool) (h : wordsDirStep fs = (fs3, ch)) :
    ".few/words" ∈ fs3.dirs ∧ fs3.files = fs.files := by
  unfold wordsDirStep at h
  by_cases hd : ".few/words" ∈ fs.dirs
  · rw [if_pos hd] at h
    obtain ⟨rfl, _⟩ : fs = fs3 ∧ false = ch := by simpa using h
    exact ⟨hd, rfl⟩
  · rw [if_neg hd] at h
    obtain ⟨hfs, _⟩ : _ ∧ true = ch := by simpa using h
    subst hfs
    exact ⟨by simp, rfl⟩

lemma wordsDirStep_noop (fs : BootFS) (h : ".few/words" ∈ fs.dirs) :
    wordsDirStep fs = (fs, false) := by
  unfold wordsDirStep
  rw [if_pos h]

lemma litanyFileStep_post (fs fs4 : BootFS) (ch : Bool) (h : litanyFileStep fs = (fs4, ch)) :
    (lookupA LITANY_FILE fs4.files).isSome = true ∧
    (∀ k, k ≠ LITANY_FILE → lookupA k fs4.files = lookupA k fs.files) ∧
    fs4.dirs = fs.dirs := by
  unfold litanyFileStep at h
  by_cases hp : (lookupA LITANY_FILE fs.files).isSome
  · rw [if_pos hp] at h
    obtain ⟨rfl, _⟩ : fs = fs4 ∧ false = ch := by simpa using h
    exact ⟨hp, fun k _ => rfl, rfl⟩
  · rw [if_neg hp] at h
    obtain ⟨hfs, _⟩ : _ ∧ true = ch := by simpa using h
    subst hfs
    refine ⟨by rw [lookupA_setA_self]; rfl, fun k hk => lookupA_setA_other _ _ _ _ hk, rfl⟩

lemma litanyFileStep_noop (fs : BootFS) (h : (lookupA LITANY_FILE fs.files).isSome = true) :
    litanyFileStep fs = (fs, false) := by
  unfold litanyFileStep
  rw [if_pos h]

end BootLemmas2

/-- C2 (corrected, amended form).  When the hosting-CLI (Firebase)
integration is skipped — `check_firebase_cli` finds no CLI, the case the
spec's bootstrap contract covers — re-running the bootstrapper on the result
of any completed bootstrap reports `changed = false` and leaves the
filesystem exactly as it was: every artifact is presence-checked before
creation.  The Firebase restriction is forced by `few_c2_counterexample`:
with the CLI available the source sets `initialized_now = True`
unconditionally on every run. -/
theorem few_c2_rebootstrap_noop (s0 : BootFS) (ck : Bool) (rp : Option Str)
    (fL fI : Bool) (fE : BootFS → BootFS) (ck2 : Bool) (rp2 : Option Str)
    (fL2 fI2 : Bool) (fE2 : BootFS → BootFS) (ch : Bool) (s1 : BootFS)
    (h : initialize_few_project s0 false ck rp fL fI fE = some (ch, s1)) :
    initialize_few_project s1 false ck2 rp2 fL2 fI2 fE2 = some (false, s1) := by
  unfold initialize_few_project at h
  cases hps : parsemeStep s0 ck rp with
  | none => rw [hps] at h; simp at h
  | some p1 =>
    obtain ⟨fs1, ch1⟩ := p1
    rw [hps] at h
    dsimp only at h
    rcases hr2 : readmeStep fs1 with ⟨fs2, ch2⟩
    rw [hr2] at h
    rcases hw3 : wordsDirStep fs2 with ⟨fs3, ch3⟩
    rw [hw3] at h
    rcases hl4 : litanyFileStep fs3 with ⟨fs4, ch4⟩
    rw [hl4] at h
    have hs1 : s1 = update_gitignore fs4 := by
      obtain ⟨-, hfs⟩ : _ ∧ update_gitignore fs4 = s1 := by simpa using h
      exact hfs.symm
    obtain ⟨hP1, hPf, hPd⟩ := parsemeStep_post s0 ck rp fs1 ch1 hps
    obtain ⟨hR1, hRf, hRd⟩ := readmeStep_post fs1 fs2 ch2 hr2
    obtain ⟨hW1, hWf⟩ := wordsDirStep_post fs2 fs3 ch3 hw3
    obtain ⟨hL1, hLf, hLd⟩ := litanyFileStep_post fs3 fs4 ch4 hl4
    have F1 : (lookupA "PARSEME.md" s1.files).isSome = true := by
      rw [hs1, update_gitignore_other _ _ (by decide), hLf _ (by decide), hWf,
          hRf _ (by decide)]
      exact hP1
    have F2 : ∀ cc, lookupA "README.md" s1.files = some cc →
        pyStartsWith (trimLeftPy cc) (pyStrip README_COMMENT) = true := by
      intro cc hcc
      rw [hs1, update_gitignore_other _ _ (by decide), hLf _ (by decide), hWf] at hcc
      exact hR1 cc hcc
    have F3 : ".few/words" ∈ s1.dirs := by
      rw [hs1, update_gitignore_dirs, hLd]
      exact hW1
    have F4 : (lookupA LITANY_FILE s1.files).isSome = true := by
      rw [hs1, update_gitignore_other _ _ (by decide)]
      exact hL1
    unfold initialize_few_project
    rw [parsemeStep_noop s1 ck2 rp2 F1]
    simp only [readmeStep_noop s1 F2, wordsDirStep_noop s1 F3, litanyFileStep_noop s1 F4]
    rw [hs1, update_gitignore_idem, ← hs1]
    simp

/-- C2 witness: bootstrapping an empty project (Firebase unavailable) and
bootstrapping its result again returns `changed = false` with an unchanged
filesystem. -/
theorem few_c2_rebootstrap_noop_witness :
    initialize_few_project bootB false true none true true id = some (false, bootB) :=
  few_c2_rebootstrap_noop ⟨[], []⟩ true (some (tl ("# P\n"))) true true id
    true none true true id true bootB (by rfl)

/-- C2 counterexample: the same fully bootstrapped state reports
`changed = true` when the Firebase CLI is available, because the source sets
`initialized_now = True` after the hosting-init block on every run (src/few.py
line 251) — refuting the claim for every project state. -/
theorem few_c2_counterexample :
    initialize_few_project ⟨[], []⟩ false true (some (tl ("# P\n"))) true true id =
      some (true, bootB) ∧
    initialize_few_project bootB true true none true true id = some (true, bootB) :=
  ⟨by rfl, by rfl⟩
